import Mathlib

/-!
# Ember core: shallow embedding and verification

A shallow embedding of the Ember scripting-language core (lexer,
bytecode compiler, stack virtual machine, chunk codec) translated from
the C sources (`src/src/lexer.c`, `src/src/compiler.c`,
`src/src/virtual_machine.c`, `src/main.c`, `src/src/runtime.c`), with
theorems settling the specification claims about it.

Modelling conventions:
* C `double` values are modelled as rationals (`ℚ`).  Arithmetic on
  them is exact where IEEE arithmetic rounds; every claim exercised
  here only involves values on which the two agree.
* C heap values are modelled as pure inductive data; `runtime_value_copy`
  (a deep copy in C) is the identity on pure values.
* Machine integers are `Nat` with explicit `% 256` / `% 65536`
  truncation at the points where the C code casts or masks.
* `stderr` diagnostics of the compiler are collected in an error list;
  `stderr` diagnostics of the VM that do not abort the run (e.g. the
  stack-underflow message of `vm_pop`) are not recorded, only their
  effect on the machine state is.
-/

/- Batteries marks the arithmetic on `Rat` `@[irreducible]`; proofs
here evaluate compiled programs definitionally, so the core rational
operations are restored to their normal reducibility. -/
set_option allowUnsafeReducibility true in
attribute [semireducible] Rat.add Rat.mul Rat.sub Rat.div Rat.neg Rat.inv

namespace Ember

/-- The tagged runtime value (`RuntimeValue` of `runtime.h`).  The
`function` variant keeps the metadata of the C `FunctionValue`
(built-in flag, name, parameter names); the AST body pointer of a user
function is modelled by the `hasBody` presence flag only, since no
claim inspects function bodies. -/
inductive RuntimeValue : Type where
  | nullV : RuntimeValue
  | numberV (n : ℚ) : RuntimeValue
  | booleanV (b : Bool) : RuntimeValue
  | stringV (s : String) : RuntimeValue
  | arrayV (elements : List RuntimeValue) : RuntimeValue
  | objectV (props : List (String × RuntimeValue)) : RuntimeValue
  | functionV (isBuiltin : Bool) (name : String) (parameters : List String) (hasBody : Bool) :
      RuntimeValue
  deriving Repr

/-- `runtime_value_copy` (runtime.c): a deep copy.  On pure values a
deep copy is the value itself. -/
def runtime_value_copy (v : RuntimeValue) : RuntimeValue := v

/-- Two-digit zero padding, as produced by `%02d`-style formatting. -/
def padTwo (n : Nat) : String :=
  if n < 10 then "0" ++ toString n else toString n

/-- Round the fraction `n / d` (of naturals, `d > 0`) to the nearest
natural, halves up.  `printf` rounds the exact binary value of a
double to nearest; an exact decimal tie is impossible for IEEE
doubles, so the tie direction is irrelevant on the modelled domain. -/
def roundNat (n d : Nat) : Nat := (2 * n + d) / (2 * d)

/-- C `snprintf(buf, 32, "%.2f", x)` on a finite double, modelled on
rationals: the value is rounded to two decimal places and printed with
exactly two fractional digits. -/
def fmtFixed2 (q : ℚ) : String :=
  let sign := if q.num < 0 then "-" else ""
  let n := roundNat (100 * q.num.natAbs) q.den
  sign ++ toString (n / 100) ++ "." ++ padTwo (n % 100)

/-- Strip trailing `'0'` characters from a digit string. -/
def stripZeros (s : List Char) : List Char :=
  (s.reverse.dropWhile (· = '0')).reverse

/-- Decimal digit count, with explicit fuel (`digits10 n n` is exact). -/
def digits10 : Nat → Nat → Nat
  | 0, _ => 0
  | fuel + 1, n => if n = 0 then 0 else 1 + digits10 fuel (n / 10)

/-- Decimal exponent of the positive fraction `n / d`: the unique `e`
with `10^e ≤ n/d < 10^(e+1)`, found from the digit counts. -/
def decExp (n d : Nat) : ℤ :=
  let e0 : ℤ := (digits10 n n : ℤ) - (digits10 d d : ℤ) - 1
  let nextUp :=  -- whether 10^(e0+1) ≤ n/d
    if 0 ≤ e0 + 1 then 10 ^ (e0 + 1).toNat * d ≤ n else d ≤ 10 ^ (-(e0 + 1)).toNat * n
  if nextUp then e0 + 1 else e0

/-- C `printf("%g", x)` on a finite double, modelled on rationals:
default precision 6 significant digits, `%f`-style for decimal
exponents in `[-4, 6)`, `%e`-style otherwise, trailing zeros (and a
trailing point) removed.  As with `fmtFixed2`, decimal ties cannot
occur for actual doubles. -/
def fmtG (q : ℚ) : String :=
  if q.num = 0 then "0" else
  let sign := if q.num < 0 then "-" else ""
  let n := q.num.natAbs
  let d := q.den
  let e := decExp n d
  let m :=  -- n/d scaled to six significant digits and rounded
    if 0 ≤ (5 : ℤ) - e then roundNat (n * 10 ^ ((5 : ℤ) - e).toNat) d
    else roundNat n (d * 10 ^ (e - 5).toNat)
  let (m, e) := if m = 10 ^ 6 then ((10 ^ 5 : Nat), e + 1) else (m, e)
  let ds := (toString m).toList
  if -4 ≤ e ∧ e < 6 then
    if 0 ≤ e then
      let ip := ds.take (e.toNat + 1)
      let fp := stripZeros (ds.drop (e.toNat + 1))
      sign ++ String.mk ip ++ (if fp.isEmpty then "" else "." ++ String.mk fp)
    else
      let fp := stripZeros ds
      sign ++ "0." ++ String.mk (List.replicate (-(e + 1)).toNat '0' ++ fp)
  else
    let fp := stripZeros (ds.drop 1)
    let es := if 0 ≤ e then "+" else "-"
    sign ++ String.mk (ds.take 1) ++
      (if fp.isEmpty then "" else "." ++ String.mk fp) ++
      "e" ++ es ++ padTwo e.natAbs

/-- Value of a decimal digit string (used by the `atof` model). -/
def digitsVal (l : List Char) : Nat :=
  l.foldl (fun a c => 10 * a + (c.toNat - '0'.toNat)) 0

/-- C `atof` restricted to the strings the Ember lexer produces as
number tokens: one or more digits optionally followed by `.` and more
digits.  The decimal value is taken exactly (the C conversion rounds
it to the nearest double; the claims only involve values on which the
two agree). -/
def atof (s : String) : ℚ :=
  let l := s.toList
  let ip := l.takeWhile Char.isDigit
  let rest := l.drop ip.length
  let fp := match rest with
    | '.' :: r => r.takeWhile Char.isDigit
    | _ => []
  let denom : Nat := 10 ^ fp.length
  mkRat ((digitsVal ip * denom + digitsVal fp : Nat) : ℤ) denom

/-! ## Opcode numbering

The numeric opcode values follow the `OpCode` enum of
`include/virtual_machine.h` (first enumerator `OP_NOOP = 0`, the rest
consecutive).  `OP_GET_KEYS` and `OP_GET_LENGTH` are referenced by
`compiler.c` but are declared in no header under `src/`; they are given
the two values after the end of the enum.  `vm_run` has no case for
them, so like every opcode without a case they fall to the unknown-
opcode error, and their exact numbers are immaterial. -/

def OP_NOOP : Nat := 0
def OP_EOF : Nat := 1
def OP_POP : Nat := 2
def OP_DUP : Nat := 3
def OP_SWAP : Nat := 4
def OP_LOAD_CONST : Nat := 5
def OP_LOAD_VAR : Nat := 6
def OP_STORE_VAR : Nat := 7
def OP_LOAD_GLOBAL : Nat := 8
def OP_STORE_GLOBAL : Nat := 9
def OP_LOAD_UPVALUE : Nat := 10
def OP_STORE_UPVALUE : Nat := 11
def OP_ADD : Nat := 12
def OP_SUB : Nat := 13
def OP_MUL : Nat := 14
def OP_DIV : Nat := 15
def OP_MOD : Nat := 16
def OP_NEG : Nat := 17
def OP_NOT : Nat := 18
def OP_AND : Nat := 19
def OP_OR : Nat := 20
def OP_EQ : Nat := 21
def OP_NEQ : Nat := 22
def OP_LT : Nat := 23
def OP_GT : Nat := 24
def OP_LTE : Nat := 25
def OP_GTE : Nat := 26
def OP_JUMP : Nat := 27
def OP_JUMP_IF_FALSE : Nat := 28
def OP_JUMP_IF_TRUE : Nat := 29
def OP_LOOP : Nat := 30
def OP_CALL : Nat := 31
def OP_RETURN : Nat := 32
def OP_CALL_METHOD : Nat := 33
def OP_NEW_ARRAY : Nat := 34
def OP_ARRAY_PUSH : Nat := 35
def OP_GET_INDEX : Nat := 36
def OP_SET_INDEX : Nat := 37
def OP_NEW_OBJECT : Nat := 38
def OP_SET_PROPERTY : Nat := 39
def OP_SET_NESTED_PROPERTY : Nat := 40
def OP_GET_PROPERTY : Nat := 41
def OP_COPY_PROPERTIES : Nat := 42
def OP_PRINT : Nat := 43
def OP_TO_STRING : Nat := 44
def OP_YIELD : Nat := 45
def OP_RESUME : Nat := 46
def OP_CALL_FUNCTION : Nat := 47
def OP_THROW : Nat := 48
def OP_TRY_CATCH : Nat := 49
def OP_GET_KEYS : Nat := 50
def OP_GET_LENGTH : Nat := 51

/-! ## Bytecode chunks and the compiler's symbol table -/

/-- `BytecodeChunk` (virtual_machine.h): code bytes plus a constant
pool.  Capacities are an allocation detail and are not modelled. -/
structure BytecodeChunk where
  code : List Nat
  constants : List RuntimeValue
  deriving Repr

/-- `vm_chunk_write_byte`: append one byte.  The C parameter is
`uint8_t`, so the value is truncated to a byte at the call. -/
def vm_chunk_write_byte (ch : BytecodeChunk) (b : Nat) : BytecodeChunk :=
  { ch with code := ch.code ++ [b % 256] }

/-- `vm_chunk_add_constant`: append a constant, returning its index. -/
def vm_chunk_add_constant (ch : BytecodeChunk) (v : RuntimeValue) :
    Nat × BytecodeChunk :=
  (ch.constants.length, { ch with constants := ch.constants ++ [v] })

/-- `Symbol` (compiler.h). -/
structure Symbol where
  name : String
  index : Nat
  isFunction : Bool
  is_mutable : Bool
  deriving Repr, DecidableEq

/-- The symbol table, as the list of its `count` used entries. -/
abbrev SymbolTable := List Symbol

/-- The linear search loop shared by the three symbol-table
functions of compiler.c. -/
def symtab_find (t : SymbolTable) (name : String) : Option Symbol :=
  t.find? (fun s => s.name = name)

/-- `symbol_table_get_or_add` (compiler.c): the index of an existing
entry, or a fresh entry (mutable by default) at the next index. -/
def symbol_table_get_or_add (t : SymbolTable) (name : String)
    (isFunction : Bool) : Nat × SymbolTable :=
  match symtab_find t name with
  | some s => (s.index, t)
  | none =>
      (t.length,
       t ++ [{ name := name, index := t.length, isFunction := isFunction,
               is_mutable := true }])

/-- `symbol_table_get_or_add_variable` (compiler.c): declaring a name
that already exists (as a function or as a variable) fails with the
respective diagnostic; otherwise a variable entry with the requested
mutability is added. -/
def symbol_table_get_or_add_variable (t : SymbolTable) (name : String)
    (is_mutable : Bool) : Except String (Nat × SymbolTable) :=
  match symtab_find t name with
  | some s =>
      if s.isFunction then
        .error ("Error: '" ++ name ++ "' is already defined as a function")
      else
        .error ("Error: Variable '" ++ name ++ "' is already declared")
  | none =>
      .ok (t.length,
           t ++ [{ name := name, index := t.length, isFunction := false,
                   is_mutable := is_mutable }])

/-- `symbol_table_is_variable_mutable` (compiler.c): the stored flag;
`false` for functions and for unknown names. -/
def symbol_table_is_variable_mutable (t : SymbolTable) (name : String) : Bool :=
  match symtab_find t name with
  | some s => if s.isFunction then false else s.is_mutable
  | none => false

/-! ## Tokens and the AST -/

/-- `ScriptTokenType` (lexer.h). -/
inductive ScriptTokenType : Type where
  | TOKEN_IDENTIFIER
  | TOKEN_NUMBER
  | TOKEN_STRING
  | TOKEN_OPERATOR
  | TOKEN_KEYWORD
  | TOKEN_PUNCT
  | TOKEN_BOOLEAN
  | TOKEN_NULL
  | TOKEN_INDENT
  | TOKEN_DEDENT
  | TOKEN_NEWLINE
  | TOKEN_EOF
  | TOKEN_ERROR
  deriving Repr, DecidableEq

/-- `VariableDeclarationType` (parser.h). -/
inductive VariableDeclarationType : Type where
  | VAR_DECL_VAR
  | VAR_DECL_LET
  | VAR_DECL_IMPLICIT
  deriving Repr, DecidableEq

/-- The AST (`ASTNode` of parser.h), restricted to the shapes the
bytecode compiler of compiler.c handles.  `AST_IMPORT` (which performs
file I/O at compile time), `AST_SWITCH_CASE` and the event nodes are
not modelled; in compiler.c all of them fall to diagnostic-only
default branches or to the import file loader.  Conventions:
* an object literal's parallel `keys`/`values` arrays are a list of
  pairs, its `mixins` array a list of names;
* `naked_iterator` carries a `uid` modelling the node address that
  compiler.c formats with `"%p"` into its three temporary variable
  names;
* `range`'s second field is named `rangeEnd` and `AST_VARIABLE` is the
  constructor `var_ref` (`end` and `variable` are reserved words). -/
inductive ASTNode : Type where
  | literal (token_type : ScriptTokenType) (value : String)
  | var_ref (variable_name : String)
  | unary_op (op_symbol : String) (operand : ASTNode)
  | binary_op (op_symbol : String) (left right : ASTNode)
  | assignment (variable_name : String) (value : ASTNode)
  | variable_decl (variable_name : String) (initial_value : Option ASTNode)
      (decl_type : VariableDeclarationType) (is_mutable : Bool)
  | function_call (function_name : String) (arguments : List ASTNode)
  | if_statement (condition : ASTNode) (body : ASTNode) (else_body : Option ASTNode)
  | while_loop (condition : ASTNode) (body : ASTNode)
  | for_loop (initializer : Option ASTNode) (condition : Option ASTNode)
      (increment : Option ASTNode) (body : ASTNode)
  | block (statements : List ASTNode)
  | function_def (function_name : String) (parameters : List String) (body : ASTNode)
  | array_literal (elements : List ASTNode)
  | index_access (array_expr index_expr : ASTNode)
  | object_literal (properties : List (String × ASTNode)) (mixins : List String)
  | property_access (object : ASTNode) (property : String)
  | method_call (object : ASTNode) (method : String) (arguments : List ASTNode)
  | property_assignment (object : ASTNode) (property : String) (value : ASTNode)
  | range (start rangeEnd : ASTNode)
  | naked_iterator (variable_name : String) (iterable : ASTNode) (body : ASTNode)
      (uid : Nat)
  deriving Repr

/-! ## The compiler (compiler.c) -/

/-- The mutable context threaded through the compiler: the chunk and
symbol table being built, plus the `stderr` diagnostics the C code
prints (collected in emission order). -/
structure CompState where
  chunk : BytecodeChunk
  symtab : SymbolTable
  errors : List String
  deriving Repr

/-- `emit_byte` (compiler.c). -/
def emit_byte (cs : CompState) (b : Nat) : CompState :=
  { cs with chunk := vm_chunk_write_byte cs.chunk b }

/-- Record one `fprintf(stderr, ...)` diagnostic of the compiler. -/
def emit_error (cs : CompState) (msg : String) : CompState :=
  { cs with errors := cs.errors ++ [msg] }

/-- The two-byte big-endian operand emission used for every 16-bit
variable index in compiler.c
(`emit_byte((varIndex >> 8) & 0xFF); emit_byte(varIndex & 0xFF)`). -/
def emit_u16 (cs : CompState) (idx : Nat) : CompState :=
  emit_byte (emit_byte cs ((idx / 256) % 256)) (idx % 256)

/-- `emit_jump` (compiler.c): opcode plus two `0xFF` placeholder
bytes; returns the placeholder site `code_count - 2`. -/
def emit_jump (cs : CompState) (jumpOp : Nat) : CompState × Nat :=
  let cs := emit_byte (emit_byte (emit_byte cs jumpOp) 0xFF) 0xFF
  (cs, cs.chunk.code.length - 2)

/-- `patch_jump` (compiler.c): overwrite the placeholder at `offset`
with `code_count - offset - 2` as big-endian u16 (the C stores
`(d >> 8) & 0xFF` and `d & 0xFF`). -/
def patch_jump (cs : CompState) (offset : Nat) : CompState :=
  let d := cs.chunk.code.length - offset - 2
  { cs with chunk :=
      { cs.chunk with code :=
          (cs.chunk.code.set offset ((d / 256) % 256)).set (offset + 1) (d % 256) } }

/-- `add_constant` (compiler.c). -/
def add_constant (cs : CompState) (v : RuntimeValue) : Nat × CompState :=
  let (i, ch) := vm_chunk_add_constant cs.chunk v
  (i, { cs with chunk := ch })

/-- `emit_constant` (compiler.c): add the constant and load it.  The
index operand passes through a `uint8_t` cast. -/
def emit_constant (cs : CompState) (v : RuntimeValue) : CompState :=
  let (i, cs) := add_constant cs v
  emit_byte (emit_byte cs OP_LOAD_CONST) i

/-- The mixin loop of the `AST_OBJECT_LITERAL` case of
`compile_expression`: for each mixin name, duplicate the object, load
the mixin variable, and copy its properties. -/
def compile_mixins : List String → CompState → CompState
  | [], cs => cs
  | m :: rest, cs =>
      let cs := emit_byte cs OP_DUP
      let (mixinIndex, st) := symbol_table_get_or_add cs.symtab m false
      let cs := { cs with symtab := st }
      let cs := emit_u16 (emit_byte cs OP_LOAD_VAR) mixinIndex
      let cs := emit_byte cs OP_COPY_PROPERTIES
      compile_mixins rest cs

/-!
The C compiler functions recurse mutually, with calls that keep the
node and switch function (`compile_node` → `compile_statement` →
`compile_expression`).  To keep every definition computable by the
kernel, the mutual recursion is made structural on an explicit fuel
argument; the C recursion always terminates, and `compile_ast` passes
a fuel (`compileFuel`) that is large enough that the artificial
fuel-exhaustion base case (which returns the state unchanged) is never
reached on any input.
-/

mutual

/-- `compile_expression` (compiler.c). -/
def compile_expression : Nat → ASTNode → CompState → CompState
  | 0, _, cs => cs
  | fuel + 1, node, cs =>
  match node with
  | .literal tt v =>
      match tt with
      | .TOKEN_NUMBER => emit_constant cs (.numberV (atof v))
      | .TOKEN_STRING => emit_constant cs (.stringV v)
      | .TOKEN_BOOLEAN => emit_constant cs (.booleanV (v = "true"))
      | .TOKEN_NULL => emit_constant cs .nullV
      | _ => emit_constant
          (emit_error cs "Compiler error: Unrecognized literal.") .nullV
  | .var_ref name =>
      let (varIndex, st) := symbol_table_get_or_add cs.symtab name false
      emit_u16 (emit_byte { cs with symtab := st } OP_LOAD_VAR) varIndex
  | .assignment name value =>
      if ¬ symbol_table_is_variable_mutable cs.symtab name then
        emit_error cs
          ("Compile Error: Cannot assign to immutable variable '" ++ name ++ "'")
      else
        let cs := compile_expression fuel value cs
        let (varIndex, st) := symbol_table_get_or_add cs.symtab name false
        emit_u16 (emit_byte { cs with symtab := st } OP_STORE_VAR) varIndex
  | .binary_op op l r =>
      let cs := compile_expression fuel l cs
      let cs := compile_expression fuel r cs
      if op = "+" then emit_byte cs OP_ADD
      else if op = "-" then emit_byte cs OP_SUB
      else if op = "*" then emit_byte cs OP_MUL
      else if op = "/" then emit_byte cs OP_DIV
      else if op = "==" then emit_byte cs OP_EQ
      else if op = "!=" then emit_byte cs OP_NEQ
      else if op = "<" then emit_byte cs OP_LT
      else if op = ">" then emit_byte cs OP_GT
      else if op = "<=" then emit_byte cs OP_LTE
      else if op = ">=" then emit_byte cs OP_GTE
      else if op = "&&" then emit_byte cs OP_AND
      else if op = "||" then emit_byte cs OP_OR
      else emit_error cs
        ("Compiler error: Unsupported binary operator '" ++ op ++ "'")
  | .function_call fname args =>
      if fname = "print" then
        emit_byte (compile_expr_list fuel args cs) OP_PRINT
      else
        match cs.symtab.find? (fun s => s.isFunction && s.name = fname) with
        | none => emit_error cs ("Error: Undefined function '" ++ fname ++ "'")
        | some s =>
            let cs := compile_expr_list_rev fuel args cs
            emit_byte (emit_byte (emit_byte cs OP_CALL) s.index) args.length
  | .array_literal elems =>
      compile_array_elems fuel elems (emit_byte cs OP_NEW_ARRAY)
  | .index_access a i =>
      emit_byte (compile_expression fuel i (compile_expression fuel a cs)) OP_GET_INDEX
  | .unary_op op operand =>
      let cs := compile_expression fuel operand cs
      if op = "!" then emit_byte cs OP_NOT
      else if op = "-" then emit_byte cs OP_NEG
      else emit_error cs ("Compiler error: Unknown unary op '" ++ op ++ "'")
  | .object_literal props mixins =>
      let cs := emit_byte cs OP_NEW_OBJECT
      let cs := compile_mixins mixins cs
      compile_object_props fuel props cs
  | .property_access obj prop =>
      let cs := compile_expression fuel obj cs
      emit_byte (emit_constant cs (.stringV prop)) OP_GET_PROPERTY
  | .method_call obj m args =>
      let cs := compile_expression fuel obj cs
      let cs := emit_byte cs OP_DUP
      let cs := emit_byte (emit_constant cs (.stringV m)) OP_GET_PROPERTY
      let cs := compile_expr_list fuel args cs
      emit_byte (emit_byte cs OP_CALL_METHOD) args.length
  | .property_assignment obj prop value =>
      let cs := compile_expression fuel obj cs
      let cs := emit_constant cs (.stringV prop)
      emit_byte (compile_expression fuel value cs) OP_SET_PROPERTY
  | .function_def name params _body =>
      emit_constant cs (.functionV false name params true)
  | .if_statement c b e =>
      compile_if_statement_with_return fuel c b e cs
  | .range s e =>
      let cs := emit_byte cs OP_NEW_OBJECT
      let cs := emit_byte cs OP_DUP
      let cs := emit_constant cs (.stringV "start")
      let cs := compile_expression fuel s cs
      let cs := emit_byte (emit_byte (emit_byte cs OP_SET_PROPERTY) OP_SWAP) OP_POP
      let cs := emit_byte cs OP_DUP
      let cs := emit_constant cs (.stringV "end")
      let cs := compile_expression fuel e cs
      emit_byte (emit_byte (emit_byte cs OP_SET_PROPERTY) OP_SWAP) OP_POP
  | .variable_decl .. | .while_loop .. | .for_loop .. | .block ..
  | .naked_iterator .. =>
      emit_error cs "Compiler error: Unexpected node type in expression."

/-- The print-argument / method-argument loop: compile each expression
in order. -/
def compile_expr_list : Nat → List ASTNode → CompState → CompState
  | 0, _, cs => cs
  | _, [], cs => cs
  | fuel + 1, a :: rest, cs => compile_expr_list fuel rest (compile_expression fuel a cs)

/-- The user-call argument loop: compile the expressions in reverse
order (`for i = argc-1 down to 0`). -/
def compile_expr_list_rev : Nat → List ASTNode → CompState → CompState
  | 0, _, cs => cs
  | _, [], cs => cs
  | fuel + 1, a :: rest, cs => compile_expression fuel a (compile_expr_list_rev fuel rest cs)

/-- The element loop of `AST_ARRAY_LITERAL`: compile the element, then
`OP_ARRAY_PUSH`. -/
def compile_array_elems : Nat → List ASTNode → CompState → CompState
  | 0, _, cs => cs
  | _, [], cs => cs
  | fuel + 1, a :: rest, cs =>
      compile_array_elems fuel rest (emit_byte (compile_expression fuel a cs) OP_ARRAY_PUSH)

/-- The property loop of `AST_OBJECT_LITERAL`: duplicate the object,
push the key constant, compile the value, `OP_SET_PROPERTY`, then
swap/pop to drop the stale object reference. -/
def compile_object_props : Nat → List (String × ASTNode) → CompState → CompState
  | 0, _, cs => cs
  | _, [], cs => cs
  | fuel + 1, (k, v) :: rest, cs =>
      let cs := emit_byte cs OP_DUP
      let cs := emit_constant cs (.stringV k)
      let cs := compile_expression fuel v cs
      let cs := emit_byte (emit_byte (emit_byte cs OP_SET_PROPERTY) OP_SWAP) OP_POP
      compile_object_props fuel rest cs

/-- `compile_if_statement_with_return` (compiler.c), taking the
condition/body/else components of the `AST_IF_STATEMENT` node it is
always called with (its non-if guard is therefore not represented). -/
def compile_if_statement_with_return :
    Nat → ASTNode → ASTNode → Option ASTNode → CompState → CompState
  | 0, _, _, _, cs => cs
  | fuel + 1, cond, body, else_body, cs =>
  let cs := compile_expression fuel cond cs
  let (cs, elseJump) := emit_jump cs OP_JUMP_IF_FALSE
  let cs :=
    match body with
    | .block stmts => compile_function_body_block fuel stmts cs
    | b => compile_expression fuel b cs
  let (cs, endJump) := emit_jump cs OP_JUMP
  let cs := patch_jump cs elseJump
  let cs :=
    match else_body with
    | some (.block stmts) => compile_function_body_block fuel stmts cs
    | some e => compile_expression fuel e cs
    | none => emit_constant cs .nullV
  patch_jump cs endJump

/-- The per-statement switch of `compile_function_body` (compiler.c):
expression shapes stay on the stack, an `if` uses the return-preserving
compiler, anything else is compiled as a statement followed by a null
constant. -/
def compile_function_body_single : Nat → ASTNode → CompState → CompState
  | 0, _, cs => cs
  | fuel + 1, node, cs =>
  match node with
  | .binary_op .. | .function_call .. | .array_literal .. | .index_access ..
  | .unary_op .. | .literal .. | .var_ref .. | .object_literal ..
  | .property_access .. | .method_call .. | .range .. =>
      compile_expression fuel node cs
  | .if_statement c b e => compile_if_statement_with_return fuel c b e cs
  | _ => emit_constant (compile_statement fuel node cs) .nullV

/-- The `AST_BLOCK` arm of `compile_function_body` (compiler.c): all
statements but the last compile normally; the last is kept as the
return value; an empty body returns null. -/
def compile_function_body_block : Nat → List ASTNode → CompState → CompState
  | 0, _, cs => cs
  | _, [], cs => emit_constant cs .nullV
  | fuel + 1, [last], cs => compile_function_body_single fuel last cs
  | fuel + 1, s :: rest, cs => compile_function_body_block fuel rest (compile_node fuel s cs)

/-- `compile_statement` (compiler.c). -/
def compile_statement : Nat → ASTNode → CompState → CompState
  | 0, _, cs => cs
  | fuel + 1, node, cs =>
  match node with
  | .variable_decl name init _dt mutFlag =>
      let cs :=
        match init with
        | some e => compile_expression fuel e cs
        | none => emit_constant cs .nullV
      match symbol_table_get_or_add_variable cs.symtab name mutFlag with
      | .error msg => emit_error cs msg
      | .ok (varIndex, st) =>
          emit_u16 (emit_byte { cs with symtab := st } OP_STORE_VAR) varIndex
  | .if_statement c b e =>
      let cs := compile_expression fuel c cs
      let (cs, elseJump) := emit_jump cs OP_JUMP_IF_FALSE
      let cs := compile_node fuel b cs
      let (cs, endJump) := emit_jump cs OP_JUMP
      let cs := patch_jump cs elseJump
      let cs :=
        match e with
        | some eb => compile_node fuel eb cs
        | none => cs
      patch_jump cs endJump
  | .while_loop c b =>
      let loopStart := cs.chunk.code.length
      let cs := compile_expression fuel c cs
      let (cs, loopEndJump) := emit_jump cs OP_JUMP_IF_FALSE
      let cs := compile_node fuel b cs
      let cs := emit_byte cs OP_LOOP
      let offset := cs.chunk.code.length - loopStart + 2
      let cs := emit_byte (emit_byte cs ((offset / 256) % 256)) (offset % 256)
      patch_jump cs loopEndJump
  | .for_loop init c inc b =>
      let cs :=
        match init with
        | some i => compile_node fuel i cs
        | none => cs
      let loopStart := cs.chunk.code.length
      let cs :=
        match c with
        | some ce => compile_expression fuel ce cs
        | none => emit_constant cs (.booleanV true)
      let (cs, loopEndJump) := emit_jump cs OP_JUMP_IF_FALSE
      let cs := compile_node fuel b cs
      let cs :=
        match inc with
        | some ie => emit_byte (compile_expression fuel ie cs) OP_POP
        | none => cs
      let cs := emit_byte cs OP_LOOP
      let offset := cs.chunk.code.length - loopStart + 2
      let cs := emit_byte (emit_byte cs ((offset / 256) % 256)) (offset % 256)
      patch_jump cs loopEndJump
  | .naked_iterator var_name iterable body uid =>
      compile_naked_iterator fuel var_name iterable body uid cs
  | .block stmts => compile_block_stmts fuel stmts cs
  | .function_def .. =>
      emit_error cs "Compiler error: Unexpected node type in statement."
  | n =>
      emit_byte (compile_expression fuel n cs) OP_POP

/-- The `AST_NAKED_ITERATOR` case of `compile_statement` (compiler.c).
`uid` models the node address formatted into the temporary variable
names with `"%p"`. -/
def compile_naked_iterator :
    Nat → String → ASTNode → ASTNode → Nat → CompState → CompState
  | 0, _, _, _, _, cs => cs
  | fuel + 1, var_name, iterable, body, uid, cs =>
  match iterable with
  | .range rstart rend =>
      let cs := compile_expression fuel rstart cs
      let (varIndex, st) := symbol_table_get_or_add cs.symtab var_name false
      let cs := emit_u16 (emit_byte { cs with symtab := st } OP_STORE_VAR) varIndex
      let loopStart := cs.chunk.code.length
      let cs := emit_u16 (emit_byte cs OP_LOAD_VAR) varIndex
      let cs := compile_expression fuel rend cs
      let cs := emit_byte cs OP_LTE
      let (cs, loopEndJump) := emit_jump cs OP_JUMP_IF_FALSE
      let cs := compile_node fuel body cs
      let cs := emit_u16 (emit_byte cs OP_LOAD_VAR) varIndex
      let cs := emit_constant cs (.numberV 1)
      let cs := emit_byte cs OP_ADD
      let cs := emit_u16 (emit_byte cs OP_STORE_VAR) varIndex
      let cs := emit_byte cs OP_LOOP
      let offset := cs.chunk.code.length - loopStart + 2
      let cs := emit_byte (emit_byte cs ((offset / 256) % 256)) (offset % 256)
      patch_jump cs loopEndJump
  | it =>
      if (match it with
          | .var_ref _ | .array_literal _ | .property_access .. => true
          | _ => false) = true then
      let index_var_name := "__iter_index_" ++ toString uid
      let (indexVarIndex, st) := symbol_table_get_or_add cs.symtab index_var_name false
      let cs := { cs with symtab := st }
      let keys_var_name := "__iter_keys_" ++ toString uid
      let (keysVarIndex, st) := symbol_table_get_or_add cs.symtab keys_var_name false
      let cs := { cs with symtab := st }
      let collection_var_name := "__iter_collection_" ++ toString uid
      let (collectionVarIndex, st) :=
        symbol_table_get_or_add cs.symtab collection_var_name false
      let cs := { cs with symtab := st }
      let cs := compile_expression fuel it cs
      let cs := emit_byte cs OP_DUP
      let cs := emit_u16 (emit_byte cs OP_STORE_VAR) collectionVarIndex
      let cs := emit_byte cs OP_GET_KEYS
      let cs := emit_u16 (emit_byte cs OP_STORE_VAR) keysVarIndex
      let cs := emit_constant cs (.numberV 0)
      let cs := emit_u16 (emit_byte cs OP_STORE_VAR) indexVarIndex
      let loopStart := cs.chunk.code.length
      let cs := emit_u16 (emit_byte cs OP_LOAD_VAR) indexVarIndex
      let cs := emit_u16 (emit_byte cs OP_LOAD_VAR) keysVarIndex
      let cs := emit_byte cs OP_GET_LENGTH
      let cs := emit_byte cs OP_LT
      let (cs, loopEndJump) := emit_jump cs OP_JUMP_IF_FALSE
      let cs := emit_u16 (emit_byte cs OP_LOAD_VAR) keysVarIndex
      let cs := emit_u16 (emit_byte cs OP_LOAD_VAR) indexVarIndex
      let cs := emit_byte cs OP_GET_INDEX
      let cs := emit_byte cs OP_DUP
      let cs := emit_u16 (emit_byte cs OP_LOAD_VAR) collectionVarIndex
      let cs := emit_byte cs OP_SWAP
      let cs := emit_byte cs OP_GET_INDEX
      let cs :=
        match it with
        | .array_literal _ => emit_byte (emit_byte cs OP_SWAP) OP_POP
        | _ => emit_byte cs OP_POP
      let (varIndex, st) := symbol_table_get_or_add cs.symtab var_name false
      let cs := emit_u16 (emit_byte { cs with symtab := st } OP_STORE_VAR) varIndex
      let cs := compile_node fuel body cs
      let cs := emit_u16 (emit_byte cs OP_LOAD_VAR) indexVarIndex
      let cs := emit_constant cs (.numberV 1)
      let cs := emit_byte cs OP_ADD
      let cs := emit_u16 (emit_byte cs OP_STORE_VAR) indexVarIndex
      let cs := emit_byte cs OP_LOOP
      let offset := cs.chunk.code.length - loopStart + 2
      let cs := emit_byte (emit_byte cs ((offset / 256) % 256)) (offset % 256)
      patch_jump cs loopEndJump
      else emit_error cs "Compiler error: Unsupported iterable type in naked iterator"

/-- The statement loop of the `AST_BLOCK` case of `compile_statement`. -/
def compile_block_stmts : Nat → List ASTNode → CompState → CompState
  | 0, _, cs => cs
  | _, [], cs => cs
  | fuel + 1, s :: rest, cs => compile_block_stmts fuel rest (compile_node fuel s cs)

/-- `compile_node` (compiler.c): every modelled node shape is on its
statement whitelist and is routed to `compile_statement`. -/
def compile_node : Nat → ASTNode → CompState → CompState
  | 0, _, cs => cs
  | fuel + 1, node, cs => compile_statement fuel node cs

end

/-- `compile_ast` (compiler.c): compile the root node, then emit
`OP_EOF`.  Like the functions above it takes the fuel explicitly;
every concrete use passes a fuel comfortably above the recursion depth
of its program. -/
def compile_ast (fuel : Nat) (ast : ASTNode) (cs : CompState) : CompState :=
  emit_byte (compile_node fuel ast cs) OP_EOF

/-! ## The virtual machine (virtual_machine.c) -/

/-- The property list of an object value (`keys`/`values`/`count`). -/
abbrev Props := List (String × RuntimeValue)

/-- `vm_add_property` (virtual_machine.c): replace the value of the
first entry with the given key (keeping its position), or append a new
entry.  Values stored are deep copies, i.e. the values themselves. -/
def vm_add_property : Props → String → RuntimeValue → Props
  | [], k, v => [(k, v)]
  | (k', v') :: rest, k, v =>
      if k' = k then (k, v) :: rest else (k', v') :: vm_add_property rest k v

/-- The property-copy loop of `OP_COPY_PROPERTIES`: insert each
`(key, deep copy of value)` of the source into the target in order. -/
def copy_properties (target source : Props) : Props :=
  source.foldl (fun t kv => vm_add_property t kv.1 kv.2) target

/-- The property-lookup loop of `OP_GET_PROPERTY` (and
`vm_get_property`): a copy of the first matching value. -/
def prop_lookup (props : Props) (k : String) : Option RuntimeValue :=
  (props.find? (fun kv => kv.1 = k)).map Prod.snd

/-- The descent of `vm_set_nested_property` (virtual_machine.c) over
an already-split segment list: intermediate segments traverse an
existing object property, replace a non-object property by a fresh
object, or append a missing one; the final segment goes through
`vm_add_property`. -/
def set_nested_go : Props → List String → RuntimeValue → Props
  | props, [], _ => props
  | props, [last], v => vm_add_property props last v
  | props, seg :: rest@(_ :: _), v =>
      match prop_lookup props seg with
      | some (.objectV sub) =>
          vm_add_property props seg (.objectV (set_nested_go sub rest v))
      | some _ =>
          vm_add_property props seg (.objectV (set_nested_go [] rest v))
      | none =>
          props ++ [(seg, .objectV (set_nested_go [] rest v))]

/-- `vm_set_nested_property` (virtual_machine.c): split the dotted
path with `strtok` (which skips empty segments), cap at 32 segments,
fail on an empty path, then descend. -/
def vm_set_nested_property (props : Props) (path : String) (v : RuntimeValue) :
    Option Props :=
  let segments := ((path.splitOn ".").filter (· ≠ "")).take 32
  if segments.isEmpty then none
  else some (set_nested_go props segments v)

/-- The state of a running VM: instruction pointer, operand stack
(top at the head), the `g_globals` array (256 declared slots plus the
256 parameter slots `OP_CALL` writes beyond it), and the lines printed
to stdout so far. -/
structure VMState where
  ip : Nat
  stack : List RuntimeValue
  globals : List RuntimeValue
  output : List String
  deriving Repr

/-- The outcome of one dispatch step: continue, or stop with the exit
status `vm_run` returns (`0` for `OP_EOF` / final `OP_RETURN`, `1` for
every aborting error, including the `exit(1)` of a stack overflow in
`vm_push`). -/
inductive StepResult : Type where
  | next (s : VMState)
  | done (status : Nat) (s : VMState)
  deriving Repr

/-- `vm_pop`: underflow prints a diagnostic and yields null, leaving
the stack untouched; otherwise the top is removed and returned. -/
def vm_pop (st : List RuntimeValue) : RuntimeValue × List RuntimeValue :=
  match st with
  | [] => (.nullV, [])
  | v :: rest => (v, rest)

/-- `vm_peek 0`: top of the stack, null on underflow. -/
def vm_peek (st : List RuntimeValue) : RuntimeValue :=
  match st with
  | [] => .nullV
  | v :: _ => v

/-- The canonical truthiness used by `OP_NOT`'s non-boolean branch:
nonzero numbers and nonempty strings are truthy, everything else
(null, objects, arrays, functions) is falsy there. -/
def not_truthy (v : RuntimeValue) : Bool :=
  match v with
  | .numberV n => n ≠ 0
  | .stringV s => s ≠ ""
  | _ => false

/-- The falsiness test of `OP_JUMP_IF_FALSE`: boolean false, the
number 0 and null jump; every other value — including the empty
string — falls through. -/
def jump_if_false_isFalse (v : RuntimeValue) : Bool :=
  match v with
  | .booleanV b => b = false
  | .numberV n => n = 0
  | .nullV => true
  | _ => false

mutual

/-- The string conversion used by `OP_ADD` when exactly one operand is
a string: `runtime_value_to_string` (runtime.c).  Numbers use the
`"%.2f"` fixed two-decimal format; booleans print `true`/`false`;
null prints `null`; arrays and objects print in the bracketed
JSON-like form their element loops build; functions print their
label. -/
def runtime_value_to_string : RuntimeValue → String
  | .numberV n => fmtFixed2 n
  | .stringV s => s
  | .booleanV b => if b then "true" else "false"
  | .nullV => "null"
  | .arrayV elems => "[" ++ rvts_list elems ++ "]"
  | .objectV props => "\x7b" ++ rvts_props props ++ "\x7d"
  | .functionV isBuiltin name _ _ =>
      if isBuiltin then "[Built-in Function]" else "[Function: " ++ name ++ "]"

/-- The element loop of the array case of `runtime_value_to_string`. -/
def rvts_list : List RuntimeValue → String
  | [] => ""
  | [x] => runtime_value_to_string x
  | x :: rest => runtime_value_to_string x ++ ", " ++ rvts_list rest

/-- The property loop of the object case of `runtime_value_to_string`. -/
def rvts_props : List (String × RuntimeValue) → String
  | [] => ""
  | [(k, v)] => k ++ ": " ++ runtime_value_to_string v
  | (k, v) :: rest =>
      k ++ ": " ++ runtime_value_to_string v ++ ", " ++ rvts_props rest

end

/-- The semantic core of `OP_ADD` (virtual_machine.c), in the source's
branch order: string+string concatenates; a string on the left
converts the right with `runtime_value_to_string`; a string on the
right converts the left; two numbers add; anything else is the
aborting type error (`none`). -/
def vm_add (a b : RuntimeValue) : Option RuntimeValue :=
  match a, b with
  | .stringV sa, .stringV sb => some (.stringV (sa ++ sb))
  | .stringV sa, _ => some (.stringV (sa ++ runtime_value_to_string b))
  | _, .stringV sb => some (.stringV (runtime_value_to_string a ++ sb))
  | .numberV na, .numberV nb => some (.numberV (na + nb))
  | _, _ => none

/-- The comparison outcome shared by `OP_EQ`/`OP_NEQ`/`OP_LT`/`OP_GT`/
`OP_LTE`/`OP_GTE` (virtual_machine.c): comparisons other than
(in)equality are only true on numbers; equality falls back to
same-kind comparison for booleans, strings and null, and is false for
objects/arrays/functions and across kinds. -/
def vm_compare (op : Nat) (a b : RuntimeValue) : Bool :=
  match a, b with
  | .numberV x, .numberV y =>
      if op = OP_EQ then x = y
      else if op = OP_NEQ then x ≠ y
      else if op = OP_LT then x < y
      else if op = OP_GT then x > y
      else if op = OP_LTE then x ≤ y
      else if op = OP_GTE then x ≥ y
      else false
  | _, _ =>
      if op = OP_EQ ∨ op = OP_NEQ then
        let equal :=
          match a, b with
          | .booleanV x, .booleanV y => x = y
          | .stringV x, .stringV y => x = y
          | .nullV, .nullV => true
          | _, _ => false
        if op = OP_NEQ then !equal else equal
      else false

/-- `printf("%s\n", ...)`-style line of `OP_PRINT` for one value:
numbers with `"%g\n"`, strings, booleans and null with their literal
forms, anything else as `[Object or Array]`. -/
def vm_print_line (v : RuntimeValue) : String :=
  match v with
  | .numberV n => fmtG n ++ "\n"
  | .stringV s => s ++ "\n"
  | .booleanV b => (if b then "true" else "false") ++ "\n"
  | .nullV => "null\n"
  | _ => "[Object or Array]\n"

/-- A C `(int)` cast of a double: truncation toward zero. -/
def c_int_of_double (q : ℚ) : ℤ := Int.div q.num q.den

/-- C `fmod`: `a - trunc(a/b) * b`. -/
def c_fmod (a b : ℚ) : ℚ := a - (c_int_of_double (a / b) : ℚ) * b

/-- Read the code byte at `i`.  An out-of-range read is undefined
behaviour in C (the VM bounds-checks only the opcode fetch); it is
modelled as the byte 0. -/
def code_byte (ch : BytecodeChunk) (i : Nat) : Nat := ch.code.getD i 0

/-- The 16-bit big-endian operand read `(*ip++ << 8) | *ip++`. -/
def read_u16 (ch : BytecodeChunk) (i : Nat) : Nat :=
  code_byte ch i * 256 + code_byte ch (i + 1)

/-- Read a global slot.  The C array has 256 entries and `OP_CALL`
writes a further 256 parameter slots after it; the model gives the
array length 512 and reads beyond it (undefined behaviour in C) as
null. -/
def g_get (g : List RuntimeValue) (i : Nat) : RuntimeValue := g.getD i .nullV

/-- `vm_push`: the stack capacity is fixed at 256 and an overflow
calls `exit(1)`; `none` reports that abort. -/
def vm_push_chk (st : List RuntimeValue) (v : RuntimeValue) :
    Option (List RuntimeValue) :=
  if 256 ≤ st.length then none else some (v :: st)

/-- Pop `n` values (`vm_pop` in a loop): the list of popped values in
pop order, and the remaining stack. -/
def popN : Nat → List RuntimeValue → List RuntimeValue × List RuntimeValue
  | 0, st => ([], st)
  | n + 1, st =>
      let (v, st) := vm_pop st
      let (vs, st) := popN n st
      (v :: vs, st)

/-- The argument-slot loop of `OP_CALL`: store `args[i]` into global
slot `256 + i` for `256 + i < 512`. -/
def store_args (g : List RuntimeValue) (args : List RuntimeValue) : List RuntimeValue :=
  (args.enum.foldl (fun g iv =>
    if 256 + iv.1 < 512 then g.set (256 + iv.1) iv.2 else g) g)

/-- The global-rescan loop of `OP_SET_PROPERTY` and
`OP_SET_NESTED_PROPERTY`: overwrite the first of the 256 globals that
holds an object with the same property count as the object that was
modified. -/
def update_matching_global (g : List RuntimeValue) (count : Nat)
    (newv : RuntimeValue) : List RuntimeValue :=
  match (g.take 256).findIdx? (fun v =>
      match v with
      | .objectV ps => ps.length = count
      | _ => false) with
  | some i => g.set i newv
  | none => g

/-- One iteration of the `vm_run` dispatch loop (virtual_machine.c):
fetch the opcode at `ip` (the fetch bounds check of the loop head
aborts on an out-of-range `ip`), advance past the operands, execute.
`OP_CALL_METHOD` dispatches into host built-ins or the tree-walking
runtime of runtime.c, both outside this embedding; after popping its
operands as the C does, its execution is modelled as an abort. -/
def vmStep (ch : BytecodeChunk) (s : VMState) : StepResult :=
  if h : ch.code.length ≤ s.ip then .done 1 s else
  let instr := code_byte ch s.ip
  let ip1 := s.ip + 1
  if instr = OP_NOOP then .next { s with ip := ip1 }
  else if instr = OP_EOF then .done 0 { s with ip := ip1 }
  else if instr = OP_POP then
    match s.stack with
    | [] => .next { s with ip := ip1 }
    | _ :: rest => .next { s with ip := ip1, stack := rest }
  else if instr = OP_DUP then
    match vm_push_chk s.stack (vm_peek s.stack) with
    | none => .done 1 s
    | some st => .next { s with ip := ip1, stack := st }
  else if instr = OP_SWAP then
    if s.stack.length < 2 then .done 1 s
    else
      let (a, st) := vm_pop s.stack
      let (b, st) := vm_pop st
      .next { s with ip := ip1, stack := b :: a :: st }
  else if instr = OP_LOAD_CONST then
    let cix := code_byte ch ip1
    match vm_push_chk s.stack (ch.constants.getD cix .nullV) with
    | none => .done 1 s
    | some st => .next { s with ip := ip1 + 1, stack := st }
  else if instr = OP_LOAD_VAR then
    let varIndex := read_u16 ch ip1
    match vm_push_chk s.stack (g_get s.globals varIndex) with
    | none => .done 1 s
    | some st => .next { s with ip := ip1 + 2, stack := st }
  else if instr = OP_STORE_VAR then
    let varIndex := read_u16 ch ip1
    let (v, st) := vm_pop s.stack
    .next { s with ip := ip1 + 2, stack := st, globals := s.globals.set varIndex v }
  else if instr = OP_ADD then
    let (b, st) := vm_pop s.stack
    let (a, st) := vm_pop st
    match vm_add a b with
    | none => .done 1 { s with stack := st }
    | some r =>
        match vm_push_chk st r with
        | none => .done 1 { s with stack := st }
        | some st => .next { s with ip := ip1, stack := st }
  else if instr = OP_SUB ∨ instr = OP_MUL ∨ instr = OP_DIV ∨ instr = OP_MOD then
    let (b, st) := vm_pop s.stack
    let (a, st) := vm_pop st
    match a, b with
    | .numberV x, .numberV y =>
        if (instr = OP_DIV ∨ instr = OP_MOD) ∧ y = 0 then
          .done 1 { s with stack := st }
        else
          let r : ℚ :=
            if instr = OP_SUB then x - y
            else if instr = OP_MUL then x * y
            else if instr = OP_DIV then x / y
            else c_fmod x y
          match vm_push_chk st (.numberV r) with
          | none => .done 1 { s with stack := st }
          | some st => .next { s with ip := ip1, stack := st }
    | _, _ => .done 1 { s with stack := st }
  else if instr = OP_NEG then
    let (v, st) := vm_pop s.stack
    match v with
    | .numberV x =>
        match vm_push_chk st (.numberV (-x)) with
        | none => .done 1 { s with stack := st }
        | some st => .next { s with ip := ip1, stack := st }
    | _ => .done 1 { s with stack := st }
  else if instr = OP_NOT then
    let (v, st) := vm_pop s.stack
    let r : RuntimeValue :=
      match v with
      | .booleanV b => .booleanV (!b)
      | _ => .booleanV (!not_truthy v)
    match vm_push_chk st r with
    | none => .done 1 { s with stack := st }
    | some st => .next { s with ip := ip1, stack := st }
  else if instr = OP_EQ ∨ instr = OP_NEQ ∨ instr = OP_LT ∨ instr = OP_GT ∨
          instr = OP_LTE ∨ instr = OP_GTE then
    let (b, st) := vm_pop s.stack
    let (a, st) := vm_pop st
    match vm_push_chk st (.booleanV (vm_compare instr a b)) with
    | none => .done 1 { s with stack := st }
    | some st => .next { s with ip := ip1, stack := st }
  else if instr = OP_JUMP_IF_FALSE then
    let offset := read_u16 ch ip1
    let (cond, st) := vm_pop s.stack
    if jump_if_false_isFalse cond then
      .next { s with ip := ip1 + 2 + offset, stack := st }
    else
      .next { s with ip := ip1 + 2, stack := st }
  else if instr = OP_JUMP then
    let offset := read_u16 ch ip1
    .next { s with ip := ip1 + 2 + offset }
  else if instr = OP_LOOP then
    let offset := read_u16 ch ip1
    .next { s with ip := ip1 + 2 - offset }
  else if instr = OP_CALL then
    let funcIndex := code_byte ch ip1
    let argCount := code_byte ch (ip1 + 1)
    if ch.constants.length ≤ funcIndex then .done 1 s
    else
      match ch.constants.getD funcIndex .nullV with
      | .numberV fip =>
          let returnIP := ip1 + 2
          let (popped, st) := popN argCount s.stack
          let args := popped.reverse
          let g := store_args s.globals args
          match vm_push_chk st (.numberV (returnIP : ℚ)) with
          | none => .done 1 { s with stack := st, globals := g }
          | some st =>
              .next { s with ip := (c_int_of_double fip).toNat, stack := st, globals := g }
      | _ => .done 1 s
  else if instr = OP_RETURN then
    match s.stack with
    | [] => .done 0 { s with ip := ip1 }
    | v :: rest =>
        match v with
        | .numberV q => .next { s with ip := (c_int_of_double q).toNat, stack := rest }
        | _ => .next { s with ip := ip1 }
  else if instr = OP_NEW_ARRAY then
    match vm_push_chk s.stack (.arrayV []) with
    | none => .done 1 s
    | some st => .next { s with ip := ip1, stack := st }
  else if instr = OP_ARRAY_PUSH then
    let (v, st) := vm_pop s.stack
    let (arr, st) := vm_pop st
    match arr with
    | .arrayV elems =>
        match vm_push_chk st (.arrayV (elems ++ [v])) with
        | none => .done 1 { s with stack := st }
        | some st => .next { s with ip := ip1, stack := st }
    | _ => .done 1 { s with stack := st }
  else if instr = OP_GET_INDEX then
    let (idx, st) := vm_pop s.stack
    let (arr, st) := vm_pop st
    match arr, idx with
    | .arrayV elems, .numberV q =>
        let i := c_int_of_double q
        if i < 0 ∨ (elems.length : ℤ) ≤ i then .done 1 { s with stack := st }
        else
          match vm_push_chk st (elems.getD i.toNat .nullV) with
          | none => .done 1 { s with stack := st }
          | some st => .next { s with ip := ip1, stack := st }
    | .arrayV _, _ => .done 1 { s with stack := st }
    | _, _ => .done 1 { s with stack := st }
  else if instr = OP_PRINT then
    let (v, st) := vm_pop s.stack
    let out := s.output ++ [vm_print_line v]
    match vm_push_chk st .nullV with
    | none => .done 1 { s with stack := st, output := out }
    | some st => .next { s with ip := ip1, stack := st, output := out }
  else if instr = OP_TO_STRING then .next { s with ip := ip1 }
  else if instr = OP_NEW_OBJECT then
    match vm_push_chk s.stack (.objectV []) with
    | none => .done 1 s
    | some st => .next { s with ip := ip1, stack := st }
  else if instr = OP_GET_PROPERTY then
    let (pname, st) := vm_pop s.stack
    let (obj, st) := vm_pop st
    match obj, pname with
    | .objectV props, .stringV k =>
        let r := (prop_lookup props k).getD .nullV
        match vm_push_chk st r with
        | none => .done 1 { s with stack := st }
        | some st => .next { s with ip := ip1, stack := st }
    | _, _ => .done 1 { s with stack := st }
  else if instr = OP_SET_PROPERTY then
    if s.stack.length < 3 then .done 1 s
    else
      let (v, st) := vm_pop s.stack
      let (pname, st) := vm_pop st
      let (obj, st) := vm_pop st
      match pname, obj with
      | .stringV k, .objectV props =>
          let objectCopy : RuntimeValue := .objectV (vm_add_property props k v)
          let g := update_matching_global s.globals props.length objectCopy
          match vm_push_chk st objectCopy with
          | none => .done 1 { s with stack := st, globals := g }
          | some st => .next { s with ip := ip1, stack := st, globals := g }
      | _, _ => .done 1 { s with stack := st }
  else if instr = OP_SET_NESTED_PROPERTY then
    if s.stack.length < 3 then .done 1 s
    else
      let (v, st) := vm_pop s.stack
      let (pathv, st) := vm_pop st
      let (obj, st) := vm_pop st
      match pathv, obj with
      | .stringV path, .objectV props =>
          match vm_set_nested_property props path v with
          | none => .done 1 { s with stack := st }
          | some props' =>
              let objCopy : RuntimeValue := .objectV props'
              let g := update_matching_global s.globals props.length objCopy
              match vm_push_chk st objCopy with
              | none => .done 1 { s with stack := st, globals := g }
              | some st => .next { s with ip := ip1, stack := st, globals := g }
      | _, _ => .done 1 { s with stack := st }
  else if instr = OP_CALL_METHOD then
    let argCount := code_byte ch ip1
    let (_, st) := popN argCount s.stack
    let (methodVal, st) := vm_pop st
    let (_, st) := vm_pop st
    match methodVal with
    | .functionV .. => .done 1 { s with stack := st }
    | _ => .done 1 { s with stack := st }
  else if instr = OP_COPY_PROPERTIES then
    if s.stack.length < 2 then .done 1 s
    else
      let (source, st) := vm_pop s.stack
      match source, st with
      | .objectV sprops, .objectV tprops :: rest =>
          .next { s with ip := ip1, stack := .objectV (copy_properties tprops sprops) :: rest }
      | _, _ => .done 1 { s with stack := st }
  else .done 1 s

/-- The fetch/dispatch loop of `vm_run`, with fuel: `none` means the
fuel ran out, `some (status, final)` that the run ended with
`vm_run`'s return status in the given final state. -/
def vmRun (ch : BytecodeChunk) : Nat → VMState → Option (Nat × VMState)
  | 0, _ => none
  | fuel + 1, s =>
      match vmStep ch s with
      | .next s' => vmRun ch fuel s'
      | .done c s' => some (c, s')

/-- The initial VM state: `vm_run` nulls the 256 globals on entry (the
parameter slots beyond them are modelled as null as well). -/
def vmInit : VMState :=
  { ip := 0, stack := [], globals := List.replicate 512 .nullV, output := [] }

/-- The `exec` pipeline of the driver on an already-parsed program:
compile the AST from an empty chunk/symbol table and run the result
(with separate compile-recursion and VM-step fuels). -/
def compile_and_run (ast : ASTNode) (cfuel rfuel : Nat) : Option (Nat × VMState) :=
  vmRun (compile_ast cfuel ast ⟨⟨[], []⟩, [], []⟩).chunk rfuel vmInit

/-- The empty compilation context (fresh chunk, fresh symbol table). -/
def emptyCompState : CompState := ⟨⟨[], []⟩, [], []⟩

/-- Value kind tests used in claim statements. -/
def RuntimeValue.isString : RuntimeValue → Bool
  | .stringV _ => true
  | _ => false

def RuntimeValue.isNumber : RuntimeValue → Bool
  | .numberV _ => true
  | _ => false

/-! ## Programs named in the claims -/

/-- `let x: 1` followed by `x = 2` (claim C1). -/
def progLetAssign : ASTNode := .block [
  .variable_decl "x" (some (.literal .TOKEN_NUMBER "1")) .VAR_DECL_LET false,
  .assignment "x" (.literal .TOKEN_NUMBER "2")]

/-- `var x: 1` followed by `x = 2` (claim C1). -/
def progVarAssign : ASTNode := .block [
  .variable_decl "x" (some (.literal .TOKEN_NUMBER "1")) .VAR_DECL_VAR true,
  .assignment "x" (.literal .TOKEN_NUMBER "2")]

/-- `var x: 1` followed by `print(x = 2)`: prints the value the
assignment expression leaves for its consumer (claim C1). -/
def progVarPrintAssign : ASTNode := .block [
  .variable_decl "x" (some (.literal .TOKEN_NUMBER "1")) .VAR_DECL_VAR true,
  .function_call "print" [.assignment "x" (.literal .TOKEN_NUMBER "2")]]

/-- `print("n=" + 3)` (claim C3). -/
def progPrintConcat : ASTNode :=
  .function_call "print"
    [.binary_op "+" (.literal .TOKEN_STRING "n=") (.literal .TOKEN_NUMBER "3")]

/-- `1 && 2` as an expression statement (claim C8). -/
def progAndStmt : ASTNode :=
  .binary_op "&&" (.literal .TOKEN_NUMBER "1") (.literal .TOKEN_NUMBER "2")

/-- `a: {p: 1}` then `b: {:[a], p: 2}` then `print(b.p)` (claim C2). -/
def progMixinOverride : ASTNode := .block [
  .variable_decl "a" (some (.object_literal [("p", .literal .TOKEN_NUMBER "1")] []))
    .VAR_DECL_IMPLICIT true,
  .variable_decl "b" (some (.object_literal [("p", .literal .TOKEN_NUMBER "2")] ["a"]))
    .VAR_DECL_IMPLICIT true,
  .function_call "print" [.property_access (.var_ref "b") "p"]]

/-- `a: {p: 1}` then `b: {:[a]}` then `print(b.p)` (claim C2). -/
def progMixinRetain : ASTNode := .block [
  .variable_decl "a" (some (.object_literal [("p", .literal .TOKEN_NUMBER "1")] []))
    .VAR_DECL_IMPLICIT true,
  .variable_decl "b" (some (.object_literal [] ["a"]))
    .VAR_DECL_IMPLICIT true,
  .function_call "print" [.property_access (.var_ref "b") "p"]]

/-- `print(1, 2)`: a statement the statement compiler accepts without
any diagnostic (claim C5). -/
def progPrintTwo : ASTNode :=
  .function_call "print" [.literal .TOKEN_NUMBER "1", .literal .TOKEN_NUMBER "2"]

/-! ## The chunk codec (main.c: write_chunk / read_chunk) -/

/-- One unit of the serialized stream of main.c.  `fwrite`/`fread` of
a `double` copy its eight bytes verbatim, a bijection between doubles
and their bit patterns, so the embedding keeps that eight-byte payload
atomic as `f64 q`; every other unit is one octet `raw b` (with
`b < 256` on any stream the C program can produce or consume). -/
inductive WireByte : Type where
  | raw (b : Nat)
  | f64 (q : ℚ)
  deriving Repr, DecidableEq

/-- The four bytes of a C `int`, laid out little-endian as `fwrite`
writes an `int` on the x86-64 target (value taken mod 2^32). -/
def le4 (n : Nat) : List WireByte :=
  [.raw (n % 256), .raw (n / 256 % 256), .raw (n / 65536 % 256),
   .raw (n / 16777216 % 256)]

/-- Modelled from the spec: include/runtime.h, which declares the
`RuntimeValueType` enumerators that main.c writes as constant tags
(`fwrite(&t, sizeof(RuntimeValueType), 1, file)`), is not present in
src/, so concrete enumerator values are assigned here following the
case order of the switches over the type in virtual_machine.c; every
theorem below depends only on the tags being pairwise distinct. -/
def RUNTIME_VALUE_NUMBER : Nat := 0

def RUNTIME_VALUE_STRING : Nat := 1

def RUNTIME_VALUE_BOOLEAN : Nat := 2

def RUNTIME_VALUE_NULL : Nat := 3

def RUNTIME_VALUE_ARRAY : Nat := 4

def RUNTIME_VALUE_OBJECT : Nat := 5

def RUNTIME_VALUE_FUNCTION : Nat := 6

/-- The tag `write_chunk` writes for a constant: its `type` field. -/
def const_tag : RuntimeValue → Nat
  | .nullV => RUNTIME_VALUE_NULL
  | .numberV _ => RUNTIME_VALUE_NUMBER
  | .booleanV _ => RUNTIME_VALUE_BOOLEAN
  | .stringV _ => RUNTIME_VALUE_STRING
  | .arrayV _ => RUNTIME_VALUE_ARRAY
  | .objectV _ => RUNTIME_VALUE_OBJECT
  | .functionV _ _ _ _ => RUNTIME_VALUE_FUNCTION

/-- The characters `strlen` counts: those before the first NUL.  A C
string holds one byte per character; the embedding writes each
character mod 256. -/
def c_str_chars (s : String) : List Char :=
  s.data.takeWhile (fun c => c.toNat != 0)

/-- An `int` length followed by that many bytes, as `write_chunk`
emits for string payloads and function and parameter names. -/
def write_str (s : String) : List WireByte :=
  le4 (c_str_chars s).length ++ (c_str_chars s).map (fun c => .raw (c.toNat % 256))

/-- The body of `write_chunk`'s constants loop: the tag, then the
payload.  The `default` branch — taken for Array and Object
constants — prints a warning and writes no payload at all. -/
def write_constant : RuntimeValue → List WireByte
  | .numberV q => le4 RUNTIME_VALUE_NUMBER ++ [.f64 q]
  | .booleanV b => le4 RUNTIME_VALUE_BOOLEAN ++ [.raw (if b then 1 else 0)]
  | .nullV => le4 RUNTIME_VALUE_NULL
  | .stringV s => le4 RUNTIME_VALUE_STRING ++ write_str s
  | .functionV isBuiltin name params hasBody =>
      le4 RUNTIME_VALUE_FUNCTION ++ le4 (if isBuiltin then 0 else 1) ++
        (if isBuiltin then [] else
          write_str name ++ le4 params.length ++
            (params.map write_str).flatten ++ le4 (if hasBody then 1 else 0))
  | v => le4 (const_tag v)

/-- The constants loop of `write_chunk`. -/
def write_constants : List RuntimeValue → List WireByte
  | [] => []
  | v :: vs => write_constant v ++ write_constants vs

/-- `write_chunk` (main.c): `code_count`, `constants_count`, the code
bytes (the array is `uint8_t`, one octet per entry), then the
constants.  The file name and `FILE*` plumbing are dropped. -/
def write_chunk (ch : BytecodeChunk) : List WireByte :=
  le4 ch.code.length ++ le4 ch.constants.length ++
    ch.code.map (fun b => .raw (b % 256)) ++ write_constants ch.constants

/-- One `fread(&x, sizeof(int), 1, file)`: four octets, little-endian,
two's complement. -/
def read_i32 : List WireByte → Option (ℤ × List WireByte)
  | .raw b0 :: .raw b1 :: .raw b2 :: .raw b3 :: ws =>
      some (if b0 + 256 * b1 + 65536 * b2 + 16777216 * b3 < 2147483648
            then ((b0 + 256 * b1 + 65536 * b2 + 16777216 * b3 : Nat) : ℤ)
            else ((b0 + 256 * b1 + 65536 * b2 + 16777216 * b3 : Nat) : ℤ) -
              4294967296, ws)
  | _ => none

/-- One `fread(&x, sizeof(bool), 1, file)`: a single octet. -/
def read_byte : List WireByte → Option (Nat × List WireByte)
  | .raw b :: ws => some (b, ws)
  | _ => none

/-- One `fread(&x, sizeof(double), 1, file)`. -/
def read_f64 : List WireByte → Option (ℚ × List WireByte)
  | .f64 q :: ws => some (q, ws)
  | _ => none

/-- `fread(buf, 1, n, file)` into a byte buffer; a short read is the
error case. -/
def read_bytes : Nat → List WireByte → Option (List Nat × List WireByte)
  | 0, ws => some ([], ws)
  | n + 1, .raw b :: ws =>
      match read_bytes n ws with
      | some (bs, r) => some (b :: bs, r)
      | none => none
  | _ + 1, _ => none

/-- A read byte buffer as a string, one character per byte. -/
def bytes_to_string (bs : List Nat) : String :=
  String.mk (bs.map Char.ofNat)

/-- A length-prefixed name read by `read_chunk`'s user-function case:
bytes are read only when the length is positive (`name_len > 0`,
`param_len > 0`); otherwise the pointer stays NULL, modelled `""`. -/
def read_name (ws : List WireByte) : Option (String × List WireByte) :=
  match read_i32 ws with
  | none => none
  | some (len, ws) =>
      if 0 < len then
        match read_bytes len.toNat ws with
        | none => none
        | some (bs, r) => some (bytes_to_string bs, r)
      else some ("", ws)

/-- The parameter-name loop of `read_chunk`'s user-function case. -/
def read_params : Nat → List WireByte → Option (List String × List WireByte)
  | 0, ws => some ([], ws)
  | n + 1, ws =>
      match read_name ws with
      | none => none
      | some (p, ws) =>
          match read_params n ws with
          | none => none
          | some (ps, r) => some (p :: ps, r)

/-- One iteration of `read_chunk`'s constants loop: the tag, then the
payload of the tags its switch handles.  A deserialized user function
gets `body = NULL` whatever the `has_body` flag said, and a built-in
one gets `builtin_function = NULL`; every unhandled tag — Array,
Object among them — hits the `default` branch, which frees the chunk
and fails. -/
def read_constant (ws : List WireByte) : Option (RuntimeValue × List WireByte) :=
  match read_i32 ws with
  | none => none
  | some (t, ws) =>
      if t = (RUNTIME_VALUE_NUMBER : ℤ) then
        match read_f64 ws with
        | none => none
        | some (q, r) => some (.numberV q, r)
      else if t = (RUNTIME_VALUE_BOOLEAN : ℤ) then
        match read_byte ws with
        | none => none
        | some (b, r) => some (.booleanV (b != 0), r)
      else if t = (RUNTIME_VALUE_NULL : ℤ) then
        some (.nullV, ws)
      else if t = (RUNTIME_VALUE_STRING : ℤ) then
        match read_i32 ws with
        | none => none
        | some (slen, ws) =>
            if slen < 0 then none
            else
              match read_bytes slen.toNat ws with
              | none => none
              | some (bs, r) => some (.stringV (bytes_to_string bs), r)
      else if t = (RUNTIME_VALUE_FUNCTION : ℤ) then
        match read_i32 ws with
        | none => none
        | some (ftype, ws) =>
            if ftype = 1 then
              match read_name ws with
              | none => none
              | some (name, ws) =>
                  match read_i32 ws with
                  | none => none
                  | some (pc, ws) =>
                      match read_params pc.toNat ws with
                      | none => none
                      | some (params, ws) =>
                          match read_i32 ws with
                          | none => none
                          | some (_hb, r) =>
                              some (.functionV false name params false, r)
            else some (.functionV true "" [] false, ws)
      else none

/-- The constants loop of `read_chunk`. -/
def read_constants : Nat → List WireByte → Option (List RuntimeValue × List WireByte)
  | 0, ws => some ([], ws)
  | n + 1, ws =>
      match read_constant ws with
      | none => none
      | some (v, ws) =>
          match read_constants n ws with
          | none => none
          | some (vs, r) => some (v :: vs, r)

/-- `read_chunk` (main.c): the two counts, the code bytes, the
constants.  A negative count makes the corresponding
`malloc((size_t)count)` fail, an error path; bytes after the last
constant are never examined. -/
def read_chunk (ws : List WireByte) : Option BytecodeChunk :=
  match read_i32 ws with
  | none => none
  | some (cc, ws) =>
      match read_i32 ws with
      | none => none
      | some (kc, ws) =>
          if cc < 0 then none
          else
            match read_bytes cc.toNat ws with
            | none => none
            | some (code, ws) =>
                if kc < 0 then none
                else
                  match read_constants kc.toNat ws with
                  | none => none
                  | some (consts, _) => some ⟨code, consts⟩

/-- The constants inside claim C9's domain that the codec does
serialize: Null, Boolean, Number, and strings of NUL-free single-byte
characters of length below 2^31 (a C string stores one byte per
character and `strlen` stops at the first NUL). -/
def serializable_const : RuntimeValue → Bool
  | .nullV => true
  | .booleanV _ => true
  | .numberV _ => true
  | .stringV s =>
      s.data.all (fun c => c.toNat != 0 && decide (c.toNat < 256)) &&
        decide (s.data.length < 2147483648)
  | _ => false

/-- The chunk of claim C9's counterexample: one code byte and one
Array constant, inside the claim's stated domain. -/
def codecArrayChunk : BytecodeChunk := ⟨[OP_EOF], [.arrayV []]⟩

/-- Witness for `C9_amended` at a concrete chunk holding one
constant of every serializable kind. -/
def codecRoundChunk : BytecodeChunk :=
  ⟨[OP_LOAD_CONST, 0, OP_EOF],
   [.stringV "hi", .numberV (7 / 4), .booleanV true, .booleanV false, .nullV]⟩

/-! ## The lexer (lexer.c) -/

/-- The NUL terminator byte. -/
def NUL : Char := Char.ofNat 0

/-- `Token` (lexer.h): type, value (`none` for the NULL pointer),
line and column. -/
structure Token where
  type : ScriptTokenType
  value : Option String
  line : Nat
  column : Nat
  deriving Repr, DecidableEq

/-- `Lexer` (lexer.h).  `source` holds the bytes before the NUL
terminator of the C string, one character per byte; `current_char` is
not stored, being always `source[position]` (`NUL` at the end); the
indent stack keeps its top at the head, the base level `0` at the
bottom.  `pending_dedents` and `dedent_count` are written by
`lexer_handle_indentation` and read by nothing, and `current_indent`
is written only by `lexer_init`. -/
structure Lexer where
  source : List Char
  position : Nat
  line : Nat
  column : Nat
  indent_stack : List Nat
  current_indent : Nat
  at_line_start : Bool
  pending_dedents : Bool
  dedent_count : Nat
  deriving Repr

/-- `lexer->current_char`, i.e. `source[position]`. -/
def current_char (l : Lexer) : Char := l.source.getD l.position NUL

/-- `lexer_init`. -/
def lexer_init (source : String) : Lexer :=
  ⟨source.data, 0, 1, 1, [0], 0, true, false, 0⟩

/-- `lexer_advance`. -/
def lexer_advance (l : Lexer) : Lexer :=
  if current_char l = '\n' then
    { l with position := l.position + 1, line := l.line + 1, column := 1,
             at_line_start := true }
  else
    { l with position := l.position + 1, column := l.column + 1,
             at_line_start :=
               if current_char l ≠ ' ' ∧ current_char l ≠ '\t' then false
               else l.at_line_start }

/-- `lexer_advance` iterated, for the character-consuming loops. -/
def lexer_advanceN : Nat → Lexer → Lexer
  | 0, l => l
  | n + 1, l => lexer_advanceN n (lexer_advance l)

/-- `lexer_peek`: the next character, `NUL` beyond `strlen`. -/
def lexer_peek (l : Lexer) : Char :=
  if l.position + 1 < l.source.length then l.source.getD (l.position + 1) NUL
  else NUL

/-- The single-line-comment loop of
`lexer_skip_whitespace_and_comments`: stop at the newline (not
consuming it) or at the end. -/
def skip_to_newline : Nat → Lexer → Lexer
  | 0, l => l
  | f + 1, l =>
      if current_char l ≠ '\n' ∧ current_char l ≠ NUL then
        skip_to_newline f (lexer_advance l)
      else l

/-- The block-comment body loop: stop at `*/` or at the end. -/
def skip_block_body : Nat → Lexer → Lexer
  | 0, l => l
  | f + 1, l =>
      if ¬(current_char l = '*' ∧ lexer_peek l = '/') ∧ current_char l ≠ NUL then
        skip_block_body f (lexer_advance l)
      else l

/-- The tail of the block-comment case: consume the `*/` unless the
input ended inside the comment. -/
def skip_block_comment (f : Nat) (l : Lexer) : Lexer :=
  let l1 := skip_block_body f l
  if current_char l1 ≠ NUL then lexer_advance (lexer_advance l1) else l1

/-- `lexer_skip_whitespace_and_comments`.  Every iteration consumes at
least one character, so any fuel above the remaining length is
exact. -/
def lexer_skip_ws : Nat → Lexer → Lexer
  | 0, l => l
  | f + 1, l =>
      if current_char l = NUL then l
      else if current_char l = ' ' ∨ current_char l = '\t' ∨
          current_char l = '\r' then
        lexer_skip_ws f (lexer_advance l)
      else if current_char l = '/' ∧ lexer_peek l = '/' then
        lexer_skip_ws f (skip_to_newline (l.source.length + 1) l)
      else if current_char l = '/' ∧ lexer_peek l = '*' then
        lexer_skip_ws f
          (skip_block_comment (l.source.length + 1) (lexer_advance (lexer_advance l)))
      else l

/-- `isdigit` on the ASCII range. -/
def c_isdigit (c : Char) : Bool := '0' ≤ c && c ≤ '9'

/-- `isalpha` on the ASCII range. -/
def c_isalpha (c : Char) : Bool := ('a' ≤ c && c ≤ 'z') || ('A' ≤ c && c ≤ 'Z')

/-- `isalnum` on the ASCII range. -/
def c_isalnum (c : Char) : Bool := c_isalpha c || c_isdigit c

/-- `is_keyword` (lexer.c). -/
def is_keyword (s : String) : Bool :=
  ["if", "else", "while", "for", "return", "break", "continue",
   "var", "const", "let", "true", "false", "null", "import", "fn",
   "fire"].contains s

/-- The result of the string-literal loop: the accumulated characters
or an error (invalid escape, unterminated). -/
inductive StrRead : Type where
  | ok (chars : List Char)
  | err
  deriving Repr, DecidableEq

/-- The string-literal loop of `lexer_next_token`: plain characters
are copied, `\n` `\t` `\\` `\"` escapes decoded, any other escape is
the invalid-escape error (leaving the offending character
unconsumed), and reaching the end of input before the closing quote
is the unterminated-string error. -/
def read_string_loop : Nat → Lexer → List Char → StrRead × Lexer
  | 0, l, acc => (.ok acc.reverse, l)
  | f + 1, l, acc =>
      if current_char l ≠ '"' ∧ current_char l ≠ NUL then
        if current_char l = '\\' then
          if current_char (lexer_advance l) = 'n' then
            read_string_loop f (lexer_advance (lexer_advance l)) ('\n' :: acc)
          else if current_char (lexer_advance l) = 't' then
            read_string_loop f (lexer_advance (lexer_advance l)) ('\t' :: acc)
          else if current_char (lexer_advance l) = '\\' then
            read_string_loop f (lexer_advance (lexer_advance l)) ('\\' :: acc)
          else if current_char (lexer_advance l) = '"' then
            read_string_loop f (lexer_advance (lexer_advance l)) ('"' :: acc)
          else (.err, lexer_advance l)
        else read_string_loop f (lexer_advance l) (current_char l :: acc)
      else if current_char l = NUL then (.err, l)
      else (.ok acc.reverse, lexer_advance l)

/-- The identifier/keyword arm of the tokenizer body
(lexer.c:126-138). -/
def lex_ident_tok (l : Lexer) : Token × Lexer :=
  let chars := (l.source.drop l.position).takeWhile (fun c => c_isalnum c || c = '_')
  let s := String.mk chars
  let l1 := lexer_advanceN chars.length l
  let tt : ScriptTokenType :=
    if s = "true" ∨ s = "false" then .TOKEN_BOOLEAN
    else if s = "null" then .TOKEN_NULL
    else if is_keyword s then .TOKEN_KEYWORD
    else .TOKEN_IDENTIFIER
  (⟨tt, some s, l1.line, l1.column⟩, l1)

/-- The number arm (lexer.c:141-176), with the `..` lookahead that
keeps a trailing range operator out of the literal. -/
def lex_number_tok (l : Lexer) : Token × Lexer :=
  let ip := (l.source.drop l.position).takeWhile c_isdigit
  let l1 := lexer_advanceN ip.length l
  if current_char l1 = '.' then
    if lexer_peek l1 = '.' then
      (⟨.TOKEN_NUMBER, some (String.mk ip), l1.line, l1.column⟩, l1)
    else
      let l2 := lexer_advance l1
      let fp := (l2.source.drop l2.position).takeWhile c_isdigit
      let l3 := lexer_advanceN fp.length l2
      (⟨.TOKEN_NUMBER, some (String.mk (ip ++ '.' :: fp)), l3.line, l3.column⟩, l3)
  else (⟨.TOKEN_NUMBER, some (String.mk ip), l1.line, l1.column⟩, l1)

/-- The string-literal arm (lexer.c:179-232). -/
def lex_string_tok (l : Lexer) : Token × Lexer :=
  let l1 := lexer_advance l
  match read_string_loop (l1.source.length + 1) l1 [] with
  | (.ok chars, l2) => (⟨.TOKEN_STRING, some (String.mk chars), l2.line, l2.column⟩, l2)
  | (.err, l2) => (⟨.TOKEN_ERROR, none, l2.line, l2.column⟩, l2)

/-- The multi-character-operator arm (lexer.c:235-288). -/
def lex_op_tok (l : Lexer) : Token × Lexer :=
  let first := current_char l
  let l1 := lexer_advance l
  if current_char l1 = '=' then
    let l2 := lexer_advance l1
    (⟨.TOKEN_OPERATOR, some (String.mk [first, '=']), l2.line, l2.column⟩, l2)
  else if first = '&' ∧ current_char l1 = '&' then
    let l2 := lexer_advance l1
    (⟨.TOKEN_OPERATOR, some "&&", l2.line, l2.column⟩, l2)
  else if first = '|' ∧ current_char l1 = '|' then
    let l2 := lexer_advance l1
    (⟨.TOKEN_OPERATOR, some "||", l2.line, l2.column⟩, l2)
  else if first = '.' ∧ current_char l1 = '.' then
    let l2 := lexer_advance l1
    (⟨.TOKEN_OPERATOR, some "..", l2.line, l2.column⟩, l2)
  else if first = '<' ∧ current_char l1 = '-' then
    let l2 := lexer_advance l1
    (⟨.TOKEN_OPERATOR, some "<-", l2.line, l2.column⟩, l2)
  else if first = '.' then
    (⟨.TOKEN_PUNCT, some ".", l1.line, l1.column⟩, l1)
  else
    (⟨.TOKEN_OPERATOR, some (String.mk [first]), l1.line, l1.column⟩, l1)

/-- The single-character catch-all arm (lexer.c:291-311). -/
def lex_single_tok (l : Lexer) : Token × Lexer :=
  let c := current_char l
  let l1 := lexer_advance l
  if ("+-*/%".data.contains c) then
    (⟨.TOKEN_OPERATOR, some (String.mk [c]), l1.line, l1.column⟩, l1)
  else if ("(){}[],;:".data.contains c) then
    (⟨.TOKEN_PUNCT, some (String.mk [c]), l1.line, l1.column⟩, l1)
  else
    (⟨.TOKEN_ERROR, none, l1.line, l1.column⟩, l1)

/-- The post-indentation body of `lexer_next_token` (lexer.c:112-311):
whitespace and comments are skipped, then the character class picks
the arm.  Indentation is handled by the caller, so this body never
produces an Indent or Dedent and never touches the indent stack. -/
def lexer_core (l0 : Lexer) : Token × Lexer :=
  let l := lexer_skip_ws (l0.source.length + 1) l0
  if current_char l = NUL then (⟨.TOKEN_EOF, none, l.line, l.column⟩, l)
  else if current_char l = '\n' then
    let l1 := { lexer_advance l with at_line_start := true }
    (⟨.TOKEN_NEWLINE, none, l1.line, l1.column⟩, l1)
  else if c_isalpha (current_char l) ∨ current_char l = '_' then lex_ident_tok l
  else if c_isdigit (current_char l) then lex_number_tok l
  else if current_char l = '"' then lex_string_tok l
  else if current_char l = '=' ∨ current_char l = '!' ∨ current_char l = '<' ∨
      current_char l = '>' ∨ current_char l = '&' ∨ current_char l = '|' ∨
      current_char l = '.' then lex_op_tok l
  else lex_single_tok l

/-- The leading-whitespace scan of `lexer_calculate_indentation`: a
space counts 1, a tab counts 4. -/
def calc_indent_scan : Nat → Lexer → Nat × Lexer
  | 0, l => (0, l)
  | f + 1, l =>
      if current_char l = ' ' then
        let (n, l1) := calc_indent_scan f (lexer_advance l)
        (n + 1, l1)
      else if current_char l = '\t' then
        let (n, l1) := calc_indent_scan f (lexer_advance l)
        (n + 4, l1)
      else (0, l)

/-- `lexer_calculate_indentation`: `none` (the C `-1`) for a line
holding only a newline, the end of input, or a `//` comment, with the
scan position restored; otherwise the level, the scan consumed. -/
def lexer_calculate_indentation (l : Lexer) : Option Nat × Lexer :=
  let r := calc_indent_scan (l.source.length + 1) l
  if current_char r.2 = '\n' ∨ current_char r.2 = NUL ∨
      (current_char r.2 = '/' ∧ lexer_peek r.2 = '/') then (none, l)
  else (some r.1, r.2)

/-- `lexer_push_indent`: past `MAX_INDENT_LEVELS` (64) the push is
dropped with a diagnostic (the caller still emits its Indent). -/
def lexer_push_indent (l : Lexer) (level : Nat) : Lexer :=
  if l.indent_stack.length < 64 then
    { l with indent_stack := level :: l.indent_stack }
  else l

/-- The pop loop of `lexer_handle_indentation`: pop while more than
one level remains and the top exceeds the new level, returning the
remaining stack and the number of pops (`dedent_count`). -/
def pop_to (level : Nat) : List Nat → List Nat × Nat
  | [] => ([], 0)
  | [x] => ([x], 0)
  | x :: y :: rest =>
      if level < x then
        let (s, n) := pop_to level (y :: rest)
        (s, n + 1)
      else (x :: y :: rest, 0)

/-- `lexer_handle_indentation` (lexer.c:401-446).  An ignored line
hands straight back to the tokenizer body; a deeper level pushes and
emits one Indent; a shallower level pops every deeper entry but emits
only ONE Dedent, parking the rest in `dedent_count`/`pending_dedents`
(which nothing ever reads); landing between levels is the
inconsistent-indentation error, emitted without clearing
`at_line_start`. -/
def lexer_handle_indentation (l : Lexer) : Token × Lexer :=
  match lexer_calculate_indentation l with
  | (none, l0) => lexer_core { l0 with at_line_start := false }
  | (some lvl, l1) =>
      if l1.indent_stack.headD 0 < lvl then
        (⟨.TOKEN_INDENT, none, l1.line, l1.column⟩,
         { lexer_push_indent l1 lvl with at_line_start := false })
      else if lvl < l1.indent_stack.headD 0 then
        if (pop_to lvl l1.indent_stack).1.headD 0 ≠ lvl then
          (⟨.TOKEN_ERROR, none, l1.line, l1.column⟩,
           { l1 with indent_stack := (pop_to lvl l1.indent_stack).1,
                     dedent_count := (pop_to lvl l1.indent_stack).2 })
        else if 0 < (pop_to lvl l1.indent_stack).2 then
          (⟨.TOKEN_DEDENT, none, l1.line, l1.column⟩,
           { l1 with indent_stack := (pop_to lvl l1.indent_stack).1,
                     pending_dedents := true,
                     dedent_count := (pop_to lvl l1.indent_stack).2 - 1,
                     at_line_start := false })
        else
          lexer_core { l1 with indent_stack := (pop_to lvl l1.indent_stack).1,
                               dedent_count := (pop_to lvl l1.indent_stack).2,
                               at_line_start := false }
      else lexer_core { l1 with at_line_start := false }

/-- `lexer_next_token` (lexer.c:103-312): at a line start the
indentation handler runs first, and its token is returned unless it
is Eof, in which case the body falls through and tokenizes (reaching
the same Eof). -/
def lexer_next_token (l : Lexer) : Token × Lexer :=
  if l.at_line_start then
    let r := lexer_handle_indentation l
    if r.1.type ≠ .TOKEN_EOF then r else lexer_core r.2
  else lexer_core l

/-- The token stream: call `lexer_next_token` until Eof (inclusive). -/
def lexTokens : Nat → Lexer → List Token
  | 0, _ => []
  | f + 1, l =>
      let r := lexer_next_token l
      if r.1.type = .TOKEN_EOF then [r.1]
      else r.1 :: lexTokens f r.2

/-- The number of tokens of one type in a stream. -/
def countTok (tt : ScriptTokenType) : List Token → Nat
  | [] => 0
  | t :: ts => (if t.type = tt then 1 else 0) + countTok tt ts

/-! ## Claim C5 - fragment definitions -/

/-- Arithmetic over number literals: every value involved is a
Number, so `+`, `-` and `*` never hit a runtime-error path. -/
def numExpr : ASTNode → Bool
  | .literal .TOKEN_NUMBER _ => true
  | .binary_op op a b =>
      (op = "+" || op = "-" || op = "*") && numExpr a && numExpr b
  | _ => false

/-- Literal constants of the non-number kinds. -/
def constLit : ASTNode → Bool
  | .literal .TOKEN_STRING _ => true
  | .literal .TOKEN_BOOLEAN _ => true
  | .literal .TOKEN_NULL _ => true
  | _ => false

/-- The simple expressions of amended claim C5: straight-line code,
exactly one value pushed, no aborting path. -/
def simpleExpr (e : ASTNode) : Bool :=
  numExpr e || constLit e ||
    (match e with
     | .var_ref _ => true
     | _ => false)

/-- Nesting depth: the compiler-fuel measure of the fragment. -/
def exprDepth : ASTNode → Nat
  | .binary_op _ a b => 1 + max (exprDepth a) (exprDepth b)
  | _ => 1

/-- Node count: the code-length and step-count measure. -/
def exprSize : ASTNode → Nat
  | .binary_op _ a b => 1 + exprSize a + exprSize b
  | _ => 1

/-- The statements of amended claim C5: an expression statement over
a simple expression, a single-argument `print`, or a variable
declaration whose initializer (if any) is a closed simple
expression. -/
def simpleStmt : ASTNode → Bool
  | .function_call "print" [e] => simpleExpr e
  | .function_call _ _ => false
  | .variable_decl _ (some e) _ _ => numExpr e || constLit e
  | .variable_decl _ none _ _ => true
  | e => simpleExpr e

/-- The expression a fragment statement wraps, for the bounds. -/
def stmtExprOf : ASTNode → ASTNode
  | .function_call "print" [e] => e
  | .variable_decl _ (some e) _ _ => e
  | .variable_decl _ none _ _ => .literal .TOKEN_NULL "null"
  | e => e

/-- The statement shapes that reach `compile_statement`'s default
arm, the expression statements. -/
def isExprStmt : ASTNode → Bool
  | .variable_decl .. => false
  | .if_statement .. => false
  | .while_loop .. => false
  | .for_loop .. => false
  | .naked_iterator .. => false
  | .block _ => false
  | .function_def .. => false
  | _ => true

/-- `n` dispatch steps of `vm_run`'s loop, none of them final. -/
inductive StepsN (ch : BytecodeChunk) : Nat → VMState → VMState → Prop where
  | refl (s : VMState) : StepsN ch 0 s s
  | step {s t u : VMState} {n : Nat} :
      vmStep ch s = .next t → StepsN ch n t u → StepsN ch (n + 1) s u

/-- `print(1)`: claim C5's witness statement. -/
def progPrintOne : ASTNode :=
  .function_call "print" [.literal .TOKEN_NUMBER "1"]


/-! ## Claim C1 — assignment and `let` immutability -/

/-- C1 counterexample.  The claim asserts that for `var x: 1; x = 2`
the assignment expression yields the assigned value 2.  In the
compiled code `OP_STORE_VAR` consumes the right-hand side and pushes
nothing back, so a consumer of the assignment expression sees nothing:
`var x: 1; print(x = 2)` prints `null` (the value `vm_pop` produces on
the underflowed stack), not `2`. -/
theorem C1_counterexample :
    (compile_and_run progVarPrintAssign 100 100).map
        (fun r => (r.1, r.2.output)) = some (0, ["null\n"]) ∧
    ["null\n"] ≠ ["2\n"] :=
  ⟨rfl, by decide⟩

/-- C1 amended.  Compiling `let x: 1; x = 2` reports the
immutable-assignment error and emits no store for the assignment (the
only `OP_STORE_VAR` in the chunk is the declaration's; the rejected
assignment contributes nothing, the expression statement's `OP_POP`
aside), while `var x: 1; x = 2` compiles without a diagnostic, and
running it stores 2 in `x`'s slot and ends with an empty operand
stack — the assignment expression does not leave the assigned value
on the stack. -/
theorem C1_amended :
    (compile_ast 100 progLetAssign emptyCompState).errors =
      ["Compile Error: Cannot assign to immutable variable 'x'"] ∧
    (compile_ast 100 progLetAssign emptyCompState).chunk.code =
      [OP_LOAD_CONST, 0, OP_STORE_VAR, 0, 0, OP_POP, OP_EOF] ∧
    (compile_ast 100 progVarAssign emptyCompState).errors = [] ∧
    (compile_and_run progVarAssign 100 100).map
        (fun r => (r.1, g_get r.2.globals 0, r.2.stack)) =
      some (0, .numberV 2, []) :=
  ⟨rfl, rfl, rfl, rfl⟩

/-! ## Claim C3 — the add operation -/

/-- C3 counterexample.  The claim asserts that `print("n=" + 3)`
prints `n=3` and a newline; the string conversion of the non-string
operand (`runtime_value_to_string`) formats numbers with `"%.2f"`,
so the program prints `n=3.00`. -/
theorem C3_counterexample :
    (compile_and_run progPrintConcat 100 100).map
        (fun r => (r.1, r.2.output)) = some (0, ["n=3.00\n"]) ∧
    ["n=3.00\n"] ≠ ["n=3\n"] :=
  ⟨rfl, by decide⟩

/-- C3 amended.  For every pair of operand values, the add operation
returns the numeric sum when both operands are Number; when either
operand is a String it returns the concatenation, converting the
non-string side with `runtime_value_to_string` (Number in fixed
two-decimal `"%.2f"` format, Boolean as true/false, Null as null);
for every other combination of operand kinds it is the aborting
runtime error.  In particular `print("n=" + 3)` prints `n=3.00`
followed by a newline. -/
theorem C3_amended :
    (∀ x y : ℚ, vm_add (.numberV x) (.numberV y) = some (.numberV (x + y))) ∧
    (∀ a b : RuntimeValue, (a.isString || b.isString) = true →
      vm_add a b =
        some (.stringV (runtime_value_to_string a ++ runtime_value_to_string b))) ∧
    (∀ a b : RuntimeValue, a.isString = false → b.isString = false →
      (a.isNumber && b.isNumber) = false → vm_add a b = none) ∧
    (∀ x : ℚ, runtime_value_to_string (.numberV x) = fmtFixed2 x) ∧
    runtime_value_to_string (.booleanV true) = "true" ∧
    runtime_value_to_string (.booleanV false) = "false" ∧
    runtime_value_to_string .nullV = "null" ∧
    (compile_and_run progPrintConcat 100 100).map
        (fun r => (r.1, r.2.output)) = some (0, ["n=3.00\n"]) := by
  refine ⟨fun x y => rfl, ?_, ?_, fun x => rfl, rfl, rfl, rfl, rfl⟩
  · intro a b h
    cases a <;> cases b <;> simp_all [vm_add, RuntimeValue.isString,
      runtime_value_to_string]
  · intro a b ha hb hn
    cases a <;> cases b <;> simp_all [vm_add, RuntimeValue.isString,
      RuntimeValue.isNumber]

/-- Witness for `C3_amended` at the claim's own input: `"n="` is a
string, so `"n=" + 3` concatenates with the converted number. -/
theorem C3_amended_witness :
    ((RuntimeValue.stringV "n=").isString || (RuntimeValue.numberV 3).isString) = true ∧
    vm_add (.stringV "n=") (.numberV 3) =
      some (.stringV (runtime_value_to_string (.stringV "n=") ++
        runtime_value_to_string (.numberV 3))) :=
  ⟨by decide, C3_amended.2.1 (.stringV "n=") (.numberV 3) (by decide)⟩

/-! ## Claim C8 — `&&` / `||` compilation -/

/-- C8.  Compiling `1 && 2` emits the dedicated `OP_AND` opcode (both
operands are compiled unconditionally, with no short-circuit jumps and
no diagnostic), and `vm_run` has no case for `OP_AND`, so executing
the program aborts through the unknown-opcode default with status 1
after evaluating both operands. -/
theorem C8_and_is_unknown_opcode :
    (compile_ast 100 progAndStmt emptyCompState).chunk.code =
      [OP_LOAD_CONST, 0, OP_LOAD_CONST, 1, OP_AND, OP_POP, OP_EOF] ∧
    (compile_ast 100 progAndStmt emptyCompState).errors = [] ∧
    (compile_and_run progAndStmt 100 100).map
        (fun r => (r.1, r.2.stack)) =
      some (1, [.numberV 2, .numberV 1]) :=
  ⟨rfl, rfl, rfl⟩

/-! ## Claim C10 — assignment to undeclared names -/

/-- C10.  An assignment whose target name has no entry in the symbol
table (it was never declared by `var`, `let`, an implicit colon
declaration, or as a function) is rejected by `compile_expression`
exactly as an assignment to a `let` binding: the mutability check
reports the name as immutable with the same diagnostic, and the
compiler returns before emitting any instruction, so no store (indeed
no code at all) is produced for it. -/
theorem C10_undeclared_assignment_rejected (cs : CompState) (name : String)
    (e : ASTNode) (fuel : Nat) (h : ∀ sym ∈ cs.symtab, sym.name ≠ name) :
    symbol_table_is_variable_mutable cs.symtab name = false ∧
    compile_expression (fuel + 1) (.assignment name e) cs =
      { cs with errors := cs.errors ++
          ["Compile Error: Cannot assign to immutable variable '" ++ name ++ "'"] } := by
  have hfind : symtab_find cs.symtab name = none := by
    apply List.find?_eq_none.mpr
    intro s hs
    simpa using h s hs
  constructor
  · simp [symbol_table_is_variable_mutable, hfind]
  · unfold compile_expression
    simp [symbol_table_is_variable_mutable, hfind, emit_error]

/-- Witness for `C10_undeclared_assignment_rejected`: the empty symbol
table does not declare `"y"`. -/
theorem C10_witness :
    (∀ sym ∈ emptyCompState.symtab, sym.name ≠ "y") ∧
    compile_expression 1 (.assignment "y" (.literal .TOKEN_NUMBER "1")) emptyCompState =
      { emptyCompState with errors :=
          ["Compile Error: Cannot assign to immutable variable 'y'"] } :=
  ⟨by simp [emptyCompState],
   (C10_undeclared_assignment_rejected emptyCompState "y"
      (.literal .TOKEN_NUMBER "1") 0 (by simp [emptyCompState])).2⟩

/-- Dispatch lemma: at an in-range `OP_JUMP` the VM advances past the
two operand bytes and then adds the big-endian offset. -/
theorem vmStep_jump (ch : BytecodeChunk) (s : VMState)
    (hlen : s.ip < ch.code.length) (hop : code_byte ch s.ip = OP_JUMP) :
    vmStep ch s = .next { s with ip := s.ip + 1 + 2 + read_u16 ch (s.ip + 1) } := by
  unfold vmStep
  rw [dif_neg (by omega)]
  simp only [hop, OP_NOOP, OP_EOF, OP_POP, OP_DUP, OP_SWAP, OP_LOAD_CONST,
    OP_LOAD_VAR, OP_STORE_VAR, OP_ADD, OP_SUB, OP_MUL, OP_DIV, OP_MOD, OP_NEG,
    OP_NOT, OP_EQ, OP_NEQ, OP_LT, OP_GT, OP_LTE, OP_GTE, OP_JUMP_IF_FALSE, OP_JUMP]
  norm_num

/-! ## Claim C4 — forward-jump patching -/

/-- C4.  `emit_jump` emits the opcode plus two `0xFF` placeholder
bytes and returns the placeholder site `P` (the offset of the first
placeholder byte); `patch_jump` at any site `P` with `P + 2 ≤ T`,
where `T` is the code length (the jump target) at patch time, stores
`T − (P + 2)` as a big-endian u16 at `P` (provided it fits in 16
bits), and the VM executing the patched `OP_JUMP` (whose opcode byte
sits at `P − 1`) advances past the two operand bytes to `P + 2` and
adds the offset, landing exactly on `T`. -/
theorem C4_jump_patching (cs : CompState) (jumpOp : Nat) :
    ((emit_jump cs jumpOp).1.chunk.code =
        cs.chunk.code ++ [jumpOp % 256, 255, 255] ∧
      (emit_jump cs jumpOp).2 = cs.chunk.code.length + 1) ∧
    (∀ (cs' : CompState) (site : Nat),
      site + 2 ≤ cs'.chunk.code.length →
      cs'.chunk.code.length - site - 2 < 65536 →
      (patch_jump cs' site).chunk.code.length = cs'.chunk.code.length ∧
      read_u16 (patch_jump cs' site).chunk site =
        cs'.chunk.code.length - site - 2 ∧
      ∀ (s : VMState), s.ip + 1 = site →
        code_byte (patch_jump cs' site).chunk s.ip = OP_JUMP →
        vmStep (patch_jump cs' site).chunk s =
          .next { s with ip := cs'.chunk.code.length }) := by
  constructor
  · exact ⟨by simp [emit_jump, emit_byte, vm_chunk_write_byte],
      by simp [emit_jump, emit_byte, vm_chunk_write_byte]⟩
  · intro cs' site h1 h2
    have hlen : (patch_jump cs' site).chunk.code.length = cs'.chunk.code.length := by
      simp [patch_jump]
    have hread : read_u16 (patch_jump cs' site).chunk site =
        cs'.chunk.code.length - site - 2 := by
      simp only [read_u16, code_byte, patch_jump, List.getD_eq_getElem?_getD]
      rw [List.getElem?_set_ne (show site + 1 ≠ site by omega),
          List.getElem?_set_eq_of_lt _ (show site < cs'.chunk.code.length by omega),
          List.getElem?_set_eq_of_lt _
            (show site + 1 < (cs'.chunk.code.set site
              ((cs'.chunk.code.length - site - 2) / 256 % 256)).length by
                rw [List.length_set]; omega)]
      simp only [Option.getD_some]
      omega
    refine ⟨hlen, hread, ?_⟩
    intro s hip hop
    rw [vmStep_jump _ _ (by omega) hop]
    have hr : read_u16 (patch_jump cs' site).chunk (s.ip + 1) =
        cs'.chunk.code.length - site - 2 := by rw [hip, hread]
    rw [hr]
    congr 1
    simp
    omega

/-- Witness for `C4_jump_patching`: a four-byte chunk whose `OP_JUMP`
sits at offset 0 with its patched placeholder at site 1; the stored
offset is `4 − (1 + 2) = 1` and the VM lands on the target 4. -/
theorem C4_witness :
    (1 + 2 ≤ 4 ∧ 4 - 1 - 2 < 65536) ∧
    ((patch_jump ⟨⟨[OP_JUMP, 255, 255, OP_EOF], []⟩, [], []⟩ 1).chunk.code.length = 4 ∧
     read_u16 (patch_jump ⟨⟨[OP_JUMP, 255, 255, OP_EOF], []⟩, [], []⟩ 1).chunk 1 =
       4 - 1 - 2 ∧
     ∀ (s : VMState), s.ip + 1 = 1 →
        code_byte (patch_jump ⟨⟨[OP_JUMP, 255, 255, OP_EOF], []⟩, [], []⟩ 1).chunk s.ip =
          OP_JUMP →
        vmStep (patch_jump ⟨⟨[OP_JUMP, 255, 255, OP_EOF], []⟩, [], []⟩ 1).chunk s =
          .next { s with ip := 4 }) :=
  ⟨⟨by decide, by decide⟩,
   (C4_jump_patching emptyCompState OP_JUMP).2
     ⟨⟨[OP_JUMP, 255, 255, OP_EOF], []⟩, [], []⟩ 1 (by decide) (by decide)⟩

/-! ## Claim C7 — `jump-if-false` -/

/-- C7 counterexample.  The claim counts the empty string among the
falsy values of `jump-if-false`; executing `OP_JUMP_IF_FALSE` (offset
2) on an operand stack holding the empty string falls through to the
next instruction (ip 3) instead of taking the jump (ip 5): in
`vm_run`'s condition test only Boolean, Number and Null can set
`isFalse`. -/
theorem C7_counterexample :
    vmStep ⟨[OP_JUMP_IF_FALSE, 0, 2, OP_EOF, OP_EOF, OP_EOF], []⟩
        ⟨0, [.stringV ""], [], []⟩ =
      .next ⟨3, [], [], []⟩ ∧
    (3 : Nat) ≠ 0 + 3 + 2 :=
  ⟨rfl, by decide⟩

/-- C7 amended.  `jump-if-false` always pops its operand and takes the
jump exactly when the operand is falsy, where the falsy values are
boolean false, the number 0 and null; every other value — including
every string, even the empty one, as well as objects, arrays and
functions — is truthy there and execution falls through. -/
theorem C7_amended :
    (∀ v, jump_if_false_isFalse v = true ↔
        (v = .booleanV false ∨ v = .numberV 0 ∨ v = .nullV)) ∧
    (∀ s', jump_if_false_isFalse (.stringV s') = false) ∧
    (∀ (ch : BytecodeChunk) (s : VMState) (v : RuntimeValue)
        (rest : List RuntimeValue),
      s.ip < ch.code.length →
      code_byte ch s.ip = OP_JUMP_IF_FALSE →
      s.stack = v :: rest →
      vmStep ch s = .next { s with
        ip := if jump_if_false_isFalse v then s.ip + 3 + read_u16 ch (s.ip + 1)
              else s.ip + 3,
        stack := rest }) := by
  refine ⟨?_, fun s' => rfl, ?_⟩
  · intro v
    cases v <;> simp [jump_if_false_isFalse] <;> try decide
  · intro ch s v rest hlen hop hst
    unfold vmStep
    rw [dif_neg (by omega)]
    simp only [hop, hst, OP_NOOP, OP_EOF, OP_POP, OP_DUP, OP_SWAP, OP_LOAD_CONST,
      OP_LOAD_VAR, OP_STORE_VAR, OP_ADD, OP_SUB, OP_MUL, OP_DIV, OP_MOD, OP_NEG,
      OP_NOT, OP_EQ, OP_NEQ, OP_LT, OP_GT, OP_LTE, OP_GTE, OP_JUMP_IF_FALSE]
    norm_num [vm_pop]
    split <;> simp [Nat.add_assoc]

/-- Witness for `C7_amended`: at a concrete chunk and state with the
number 0 on the stack, the jump is taken. -/
theorem C7_amended_witness :
    (0 : Nat) < 6 ∧
    code_byte ⟨[OP_JUMP_IF_FALSE, 0, 2, OP_EOF, OP_EOF, OP_EOF], []⟩ 0 =
      OP_JUMP_IF_FALSE ∧
    vmStep ⟨[OP_JUMP_IF_FALSE, 0, 2, OP_EOF, OP_EOF, OP_EOF], []⟩
        ⟨0, [.numberV 0], [], []⟩ =
      .next ⟨if jump_if_false_isFalse (.numberV 0) then 0 + 3 + 2 else 0 + 3,
             [], [], []⟩ :=
  ⟨by decide, rfl, by
    have h := C7_amended.2.2 ⟨[OP_JUMP_IF_FALSE, 0, 2, OP_EOF, OP_EOF, OP_EOF], []⟩
      ⟨0, [.numberV 0], [], []⟩ (.numberV 0) [] (by decide) rfl rfl
    simpa using h⟩


/-! ## Claim C9 - chunk codec round-trip -/

theorem read_i32_le4 (n : Nat) (ws : List WireByte) (h : n < 2147483648) :
    read_i32 (le4 n ++ ws) = some ((n : ℤ), ws) := by
  have hu : n % 256 + 256 * (n / 256 % 256) + 65536 * (n / 65536 % 256) +
      16777216 * (n / 16777216 % 256) = n := by omega
  simp only [le4, List.cons_append, List.nil_append, read_i32, hu]
  rw [if_pos (by omega)]

theorem read_bytes_append (bs : List Nat) (ws : List WireByte) :
    read_bytes bs.length (bs.map (fun b => WireByte.raw b) ++ ws) = some (bs, ws) := by
  induction bs with
  | nil => simp [read_bytes]
  | cons b rest ih => simp [read_bytes, ih]

theorem char_ofNat_toNat (c : Char) : Char.ofNat c.toNat = c := by
  obtain ⟨⟨⟨⟨n, hn⟩⟩⟩, hv⟩ := c
  show Char.ofNat n = _
  unfold Char.ofNat
  rw [dif_pos (show n.isValidChar from hv)]
  rfl

theorem bytes_to_string_toNat (l : List Char) :
    bytes_to_string (l.map Char.toNat) = String.mk l := by
  unfold bytes_to_string
  rw [List.map_map]
  congr 1
  exact (List.map_congr_left (fun c _ => char_ofNat_toNat c)).trans (List.map_id l)

theorem read_constant_write (v : RuntimeValue) (ws : List WireByte)
    (h : serializable_const v = true) :
    read_constant (write_constant v ++ ws) = some (v, ws) := by
  cases v with
  | nullV =>
      simp only [write_constant, RUNTIME_VALUE_NULL]
      unfold read_constant
      rw [read_i32_le4 3 ws (by norm_num)]
      simp only [RUNTIME_VALUE_NUMBER, RUNTIME_VALUE_BOOLEAN, RUNTIME_VALUE_NULL,
        RUNTIME_VALUE_STRING, RUNTIME_VALUE_FUNCTION]
      norm_num
  | numberV q =>
      simp only [write_constant, RUNTIME_VALUE_NUMBER, List.append_assoc,
        List.cons_append, List.nil_append]
      unfold read_constant
      rw [read_i32_le4 0 _ (by norm_num)]
      simp only [RUNTIME_VALUE_NUMBER, RUNTIME_VALUE_BOOLEAN, RUNTIME_VALUE_NULL,
        RUNTIME_VALUE_STRING, RUNTIME_VALUE_FUNCTION]
      norm_num [read_f64]
  | booleanV b =>
      simp only [write_constant, RUNTIME_VALUE_BOOLEAN, List.append_assoc,
        List.cons_append, List.nil_append]
      unfold read_constant
      rw [read_i32_le4 2 _ (by norm_num)]
      simp only [RUNTIME_VALUE_NUMBER, RUNTIME_VALUE_BOOLEAN, RUNTIME_VALUE_NULL,
        RUNTIME_VALUE_STRING, RUNTIME_VALUE_FUNCTION]
      cases b <;> norm_num [read_byte]
  | stringV s =>
      simp only [serializable_const, Bool.and_eq_true, List.all_eq_true,
        decide_eq_true_eq] at h
      obtain ⟨hc, hlen⟩ := h
      have hnz : ∀ c ∈ s.data, (fun c => c.toNat != 0) c = true :=
        fun c hm => by simpa using (hc c hm).1
      have hlt : ∀ c ∈ s.data, c.toNat < 256 :=
        fun c hm => by simpa using (hc c hm).2
      have hchars : c_str_chars s = s.data := by
        unfold c_str_chars
        exact List.takeWhile_eq_self_iff.mpr hnz
      have hmap : s.data.map (fun c => WireByte.raw (c.toNat % 256)) =
          (s.data.map Char.toNat).map (fun b => WireByte.raw b) := by
        rw [List.map_map]
        exact List.map_congr_left (fun c hm => by
          simp only [Function.comp, Nat.mod_eq_of_lt (hlt c hm)])
      simp only [write_constant, write_str, hchars, hmap, RUNTIME_VALUE_STRING,
        List.append_assoc]
      unfold read_constant
      rw [read_i32_le4 1 _ (by norm_num)]
      simp only [RUNTIME_VALUE_NUMBER, RUNTIME_VALUE_BOOLEAN, RUNTIME_VALUE_NULL,
        RUNTIME_VALUE_STRING, RUNTIME_VALUE_FUNCTION]
      norm_num
      rw [read_i32_le4 s.length _ (by simpa using hlen)]
      norm_num
      rw [show List.map ((fun b => WireByte.raw b) ∘ Char.toNat) s.data =
            (s.data.map Char.toNat).map (fun b => WireByte.raw b) from
        (List.map_map _ _ _).symm]
      rw [show s.length = (s.data.map Char.toNat).length from by
        rw [List.length_map]; rfl]
      rw [read_bytes_append]
      norm_num
      rw [bytes_to_string_toNat]
  | arrayV l => simp [serializable_const] at h
  | objectV p => simp [serializable_const] at h
  | functionV a b c d => simp [serializable_const] at h

theorem read_constants_write (l : List RuntimeValue) (ws : List WireByte)
    (h : ∀ v ∈ l, serializable_const v = true) :
    read_constants l.length (write_constants l ++ ws) = some (l, ws) := by
  induction l with
  | nil => simp [write_constants, read_constants]
  | cons v vs ih =>
      simp only [write_constants, List.append_assoc, List.length_cons]
      unfold read_constants
      rw [read_constant_write v _ (h v (by simp))]
      norm_num
      rw [ih (fun u hm => h u (by simp [hm]))]

/-- C9, counterexample: `write_chunk`'s `default` branch writes an
Array constant as its bare tag (after a warning on stderr), and
`read_chunk`'s `default` branch rejects that tag, so the serialized
form of a chunk holding an Array constant deserializes to a failure,
not to the original chunk. -/
theorem C9_counterexample :
    read_chunk (write_chunk codecArrayChunk) = none ∧
      read_chunk (write_chunk codecArrayChunk) ≠ some codecArrayChunk := by
  refine ⟨rfl, ?_⟩
  intro h
  rw [(rfl : read_chunk (write_chunk codecArrayChunk) = none)] at h
  exact Option.noConfusion h

/-- C9 (amended): for every chunk whose code entries are bytes, whose
code length and constant count fit in an `int`, and whose constants
are Null, Boolean, Number, or NUL-free byte strings shorter than
2^31, deserializing the serialized form yields the original chunk:
the code bytes byte-for-byte and every constant structurally.  (Array
constants, which the claim also names, do not round-trip: see the
counterexample.) -/
theorem C9_amended (ch : BytecodeChunk)
    (hcode : ∀ b ∈ ch.code, b < 256)
    (hclen : ch.code.length < 2147483648)
    (hklen : ch.constants.length < 2147483648)
    (hconst : ∀ v ∈ ch.constants, serializable_const v = true) :
    read_chunk (write_chunk ch) = some ch := by
  obtain ⟨code, consts⟩ := ch
  simp only at hcode hclen hklen hconst
  have hmap : code.map (fun b => WireByte.raw (b % 256)) =
      code.map (fun b => WireByte.raw b) :=
    List.map_congr_left (fun b hm => by rw [Nat.mod_eq_of_lt (hcode b hm)])
  unfold write_chunk read_chunk
  simp only [hmap, List.append_assoc]
  rw [read_i32_le4 _ _ hclen]
  norm_num
  rw [read_i32_le4 _ _ hklen]
  norm_num
  rw [read_bytes_append]
  norm_num
  have hrc := read_constants_write consts [] hconst
  rw [List.append_nil] at hrc
  rw [hrc]

theorem C9_amended_witness :
    read_chunk (write_chunk codecRoundChunk) = some codecRoundChunk :=
  C9_amended codecRoundChunk (by decide) (by decide) (by decide) (by decide)


/-! ## Claim C2 - mixin precedence in object literals -/

theorem prop_lookup_add_self (t : Props) (k : String) (v : RuntimeValue) :
    prop_lookup (vm_add_property t k v) k = some v := by
  induction t with
  | nil => simp [vm_add_property, prop_lookup]
  | cons kv rest ih =>
      obtain ⟨k', v'⟩ := kv
      by_cases h : k' = k
      · simp [vm_add_property, h, prop_lookup]
      · simp only [vm_add_property, if_neg h, prop_lookup, List.find?]
        simp only [prop_lookup] at ih
        simpa [h] using ih

theorem prop_lookup_add_other (t : Props) (k k' : String) (v : RuntimeValue)
    (h : k' ≠ k) :
    prop_lookup (vm_add_property t k v) k' = prop_lookup t k' := by
  induction t with
  | nil => simp [vm_add_property, prop_lookup, List.find?, Ne.symm h]
  | cons kv rest ih =>
      obtain ⟨k0, v0⟩ := kv
      by_cases h0 : k0 = k
      · subst h0
        simp [vm_add_property, prop_lookup, List.find?, Ne.symm h]
      · simp only [vm_add_property, if_neg h0, prop_lookup, List.find?] at ih ⊢
        by_cases hk : k0 = k'
        · simp [hk]
        · simpa [hk] using ih

theorem copy_properties_append (t : Props) (s1 s2 : Props) :
    copy_properties t (s1 ++ s2) = copy_properties (copy_properties t s1) s2 := by
  simp [copy_properties, List.foldl_append]

set_option maxRecDepth 40000 in
/-- C2.  For every object literal the compiler emits `new-object`,
then the mixin copies in listed order, then the own properties
(`compile_object_props` after `compile_mixins`); on the VM side a
later property store overwrites an equal key in place and leaves
every other key untouched, so an own property overwrites the mixin's
value while a key present only in a mixin is retained.  Concretely,
`a: {p: 1}; b: {:[a], p: 2}; print(b.p)` prints `2`, and with
`b: {:[a]}` it prints `1`. -/
theorem C2_mixin_precedence :
    (∀ (fuel : Nat) (props : List (String × ASTNode)) (mixins : List String)
        (cs : CompState),
      compile_expression (fuel + 1) (.object_literal props mixins) cs =
        compile_object_props fuel props
          (compile_mixins mixins (emit_byte cs OP_NEW_OBJECT))) ∧
    (∀ (t : Props) (k : String) (v : RuntimeValue),
      prop_lookup (vm_add_property t k v) k = some v) ∧
    (∀ (t : Props) (k k' : String) (v : RuntimeValue), k' ≠ k →
      prop_lookup (vm_add_property t k v) k' = prop_lookup t k') ∧
    (∀ (t s1 s2 : Props),
      copy_properties t (s1 ++ s2) = copy_properties (copy_properties t s1) s2) ∧
    (compile_ast 100 progMixinOverride emptyCompState).errors = [] ∧
    (compile_and_run progMixinOverride 100 100).map
        (fun r => (r.1, r.2.output)) = some (0, ["2\n"]) ∧
    (compile_and_run progMixinRetain 100 100).map
        (fun r => (r.1, r.2.output)) = some (0, ["1\n"]) :=
  ⟨fun _ _ _ _ => rfl, prop_lookup_add_self, prop_lookup_add_other,
   copy_properties_append, rfl, rfl, rfl⟩

/-- Witness for `C2_mixin_precedence` at a concrete mixin-only key:
storing `p` does not disturb the retained key `q`. -/
theorem C2_mixin_precedence_witness :
    ("q" : String) ≠ "p" ∧
      prop_lookup (vm_add_property [("q", RuntimeValue.numberV 1)] "p"
          (RuntimeValue.numberV 2)) "q" =
        prop_lookup [("q", RuntimeValue.numberV 1)] "q" :=
  ⟨by decide, C2_mixin_precedence.2.2.1 [("q", RuntimeValue.numberV 1)] "p" "q"
    (RuntimeValue.numberV 2) (by decide)⟩


/-! ## Claim C6 - lexer indent/dedent balance -/

theorem lexer_advance_stack (l : Lexer) :
    (lexer_advance l).indent_stack = l.indent_stack := by
  unfold lexer_advance
  split <;> rfl

theorem lexer_advanceN_stack (n : Nat) (l : Lexer) :
    (lexer_advanceN n l).indent_stack = l.indent_stack := by
  induction n generalizing l with
  | zero => rfl
  | succ n ih => rw [lexer_advanceN, ih, lexer_advance_stack]

theorem skip_to_newline_stack (f : Nat) (l : Lexer) :
    (skip_to_newline f l).indent_stack = l.indent_stack := by
  induction f generalizing l with
  | zero => rfl
  | succ f ih =>
      rw [skip_to_newline]
      split
      · rw [ih, lexer_advance_stack]
      · rfl

theorem skip_block_body_stack (f : Nat) (l : Lexer) :
    (skip_block_body f l).indent_stack = l.indent_stack := by
  induction f generalizing l with
  | zero => rfl
  | succ f ih =>
      rw [skip_block_body]
      split
      · rw [ih, lexer_advance_stack]
      · rfl

theorem skip_block_comment_stack (f : Nat) (l : Lexer) :
    (skip_block_comment f l).indent_stack = l.indent_stack := by
  unfold skip_block_comment
  dsimp only
  split
  · rw [lexer_advance_stack, lexer_advance_stack, skip_block_body_stack]
  · rw [skip_block_body_stack]

theorem lexer_skip_ws_stack (f : Nat) (l : Lexer) :
    (lexer_skip_ws f l).indent_stack = l.indent_stack := by
  induction f generalizing l with
  | zero => rfl
  | succ f ih =>
      rw [lexer_skip_ws]
      split
      · rfl
      · split
        · rw [ih, lexer_advance_stack]
        · split
          · rw [ih, skip_to_newline_stack]
          · split
            · rw [ih, skip_block_comment_stack, lexer_advance_stack,
                lexer_advance_stack]
            · rfl

theorem read_string_loop_stack (f : Nat) (l : Lexer) (acc : List Char) :
    (read_string_loop f l acc).2.indent_stack = l.indent_stack := by
  induction f generalizing l acc with
  | zero => rfl
  | succ f ih =>
      rw [read_string_loop]
      split_ifs <;> simp [ih, lexer_advance_stack]

theorem calc_indent_scan_stack (f : Nat) (l : Lexer) :
    (calc_indent_scan f l).2.indent_stack = l.indent_stack := by
  induction f generalizing l with
  | zero => rfl
  | succ f ih =>
      rw [calc_indent_scan]
      split_ifs
      · rcases h : calc_indent_scan f (lexer_advance l) with ⟨n, l1⟩
        have h2 := ih (lexer_advance l)
        rw [h] at h2
        try dsimp only at h2 ⊢
        rw [h2, lexer_advance_stack]
      · rcases h : calc_indent_scan f (lexer_advance l) with ⟨n, l1⟩
        have h2 := ih (lexer_advance l)
        rw [h] at h2
        try dsimp only at h2 ⊢
        rw [h2, lexer_advance_stack]
      · rfl

theorem lex_ident_tok_stack (l : Lexer) :
    (lex_ident_tok l).2.indent_stack = l.indent_stack := by
  unfold lex_ident_tok
  dsimp only
  rw [lexer_advanceN_stack]

theorem lex_number_tok_stack (l : Lexer) :
    (lex_number_tok l).2.indent_stack = l.indent_stack := by
  unfold lex_number_tok
  dsimp only
  split_ifs <;>
    simp [lexer_advanceN_stack, lexer_advance_stack]

theorem lex_string_tok_stack (l : Lexer) :
    (lex_string_tok l).2.indent_stack = l.indent_stack := by
  unfold lex_string_tok
  dsimp only
  have h3 := read_string_loop_stack ((lexer_advance l).source.length + 1)
    (lexer_advance l) []
  split
  all_goals rename_i heq
  all_goals rw [heq] at h3
  all_goals simpa [lexer_advance_stack] using h3

theorem lex_op_tok_stack (l : Lexer) :
    (lex_op_tok l).2.indent_stack = l.indent_stack := by
  unfold lex_op_tok
  dsimp only
  split_ifs <;> simp [lexer_advance_stack]

theorem lex_single_tok_stack (l : Lexer) :
    (lex_single_tok l).2.indent_stack = l.indent_stack := by
  unfold lex_single_tok
  dsimp only
  split_ifs <;> simp [lexer_advance_stack]

theorem lexer_core_stack (l : Lexer) :
    (lexer_core l).2.indent_stack = l.indent_stack := by
  unfold lexer_core
  dsimp only
  rw [show l.indent_stack = (lexer_skip_ws (l.source.length + 1) l).indent_stack
    from (lexer_skip_ws_stack _ _).symm]
  generalize lexer_skip_ws (l.source.length + 1) l = A
  split_ifs <;>
    simp [lexer_advance_stack, lex_ident_tok_stack, lex_number_tok_stack,
      lex_string_tok_stack, lex_op_tok_stack, lex_single_tok_stack]

theorem lex_arm_types (l : Lexer) :
    ((lex_ident_tok l).1.type ≠ .TOKEN_DEDENT ∧
      (lex_ident_tok l).1.type ≠ .TOKEN_INDENT) ∧
    ((lex_number_tok l).1.type ≠ .TOKEN_DEDENT ∧
      (lex_number_tok l).1.type ≠ .TOKEN_INDENT) ∧
    ((lex_string_tok l).1.type ≠ .TOKEN_DEDENT ∧
      (lex_string_tok l).1.type ≠ .TOKEN_INDENT) ∧
    ((lex_op_tok l).1.type ≠ .TOKEN_DEDENT ∧
      (lex_op_tok l).1.type ≠ .TOKEN_INDENT) ∧
    ((lex_single_tok l).1.type ≠ .TOKEN_DEDENT ∧
      (lex_single_tok l).1.type ≠ .TOKEN_INDENT) := by
  unfold lex_ident_tok lex_number_tok lex_string_tok lex_op_tok lex_single_tok
  dsimp only
  refine ⟨⟨?_, ?_⟩, ⟨?_, ?_⟩, ⟨?_, ?_⟩, ⟨?_, ?_⟩, ⟨?_, ?_⟩⟩ <;>
    (repeat' split) <;> simp

theorem lexer_core_type (l : Lexer) :
    (lexer_core l).1.type ≠ .TOKEN_DEDENT ∧
    (lexer_core l).1.type ≠ .TOKEN_INDENT := by
  unfold lexer_core
  dsimp only
  generalize lexer_skip_ws (l.source.length + 1) l = A
  have h := lex_arm_types A
  split_ifs <;> simp_all

theorem lexer_core_not_dedent (l : Lexer) :
    ((lexer_core l).1.type = ScriptTokenType.TOKEN_DEDENT) = False := by
  simpa using (lexer_core_type l).1

theorem lexer_core_not_indent (l : Lexer) :
    ((lexer_core l).1.type = ScriptTokenType.TOKEN_INDENT) = False := by
  simpa using (lexer_core_type l).2

theorem lexer_calculate_indentation_stack (l : Lexer) :
    (lexer_calculate_indentation l).2.indent_stack = l.indent_stack := by
  unfold lexer_calculate_indentation
  dsimp only
  split_ifs <;> simp [calc_indent_scan_stack]

theorem lexer_push_indent_len (l : Lexer) (lvl : Nat) :
    (lexer_push_indent l lvl).indent_stack.length = l.indent_stack.length + 1 ∨
    (lexer_push_indent l lvl).indent_stack.length = l.indent_stack.length := by
  unfold lexer_push_indent
  split_ifs <;> simp

theorem pop_to_spec (lvl : Nat) (s : List Nat) :
    (pop_to lvl s).1.length + (pop_to lvl s).2 = s.length ∧
    (1 ≤ s.length → 1 ≤ (pop_to lvl s).1.length) := by
  induction s with
  | nil => simp [pop_to]
  | cons x rest ih =>
      cases rest with
      | nil => simp [pop_to]
      | cons y t =>
          by_cases h : lvl < x
          · rcases hp : pop_to lvl (y :: t) with ⟨s2, n⟩
            rw [hp] at ih
            simp only [pop_to, if_pos h, hp]
            try dsimp only
            try dsimp only at ih
            constructor
            · simp only [List.length_cons] at ih ⊢
              omega
            · intro hx
              exact ih.2 (by simp)
          · simp [pop_to, h]

theorem lexer_handle_step (l : Lexer) (h : 1 ≤ l.indent_stack.length) :
    1 ≤ (lexer_handle_indentation l).2.indent_stack.length ∧
    (if (lexer_handle_indentation l).1.type = .TOKEN_DEDENT then 1 else 0) +
        (lexer_handle_indentation l).2.indent_stack.length ≤
      (if (lexer_handle_indentation l).1.type = .TOKEN_INDENT then 1 else 0) +
        l.indent_stack.length := by
  have hc := lexer_calculate_indentation_stack l
  unfold lexer_handle_indentation
  split
  case _ l0 heq =>
      rw [heq] at hc
      have hcl : l0.indent_stack.length = l.indent_stack.length := by
        rw [show l0.indent_stack = l.indent_stack from hc]
      obtain ⟨hd, hi⟩ := lexer_core_type { l0 with at_line_start := false }
      have hs := lexer_core_stack { l0 with at_line_start := false }
      constructor
      · rw [hs]
        dsimp only
        omega
      · rw [if_neg hd, if_neg hi, hs]
        dsimp only
        omega
  case _ lvl l1 heq =>
      rw [heq] at hc
      have hcl : l1.indent_stack.length = l.indent_stack.length := by
        rw [show l1.indent_stack = l.indent_stack from hc]
      obtain ⟨hp1, hp2⟩ := pop_to_spec lvl l1.indent_stack
      have hp3 : 1 ≤ (pop_to lvl l1.indent_stack).1.length := hp2 (by omega)
      split
      · constructor <;>
          (try simp only [lexer_core_not_dedent, lexer_core_not_indent,
            if_false, lexer_core_stack]) <;>
          (try dsimp only) <;> (try simp) <;>
          (rcases lexer_push_indent_len l1 lvl with hp | hp <;> omega)
      · split
        · split
          · constructor <;>
          (try simp only [lexer_core_not_dedent, lexer_core_not_indent,
            if_false, lexer_core_stack]) <;>
          (try dsimp only) <;> (try simp) <;>
          (rcases lexer_push_indent_len l1 lvl with hp | hp <;> omega)
          · split
            · constructor <;>
          (try simp only [lexer_core_not_dedent, lexer_core_not_indent,
            if_false, lexer_core_stack]) <;>
          (try dsimp only) <;> (try simp) <;>
          (rcases lexer_push_indent_len l1 lvl with hp | hp <;> omega)
            · constructor <;>
          (try simp only [lexer_core_not_dedent, lexer_core_not_indent,
            if_false, lexer_core_stack]) <;>
          (try dsimp only) <;> (try simp) <;>
          (rcases lexer_push_indent_len l1 lvl with hp | hp <;> omega)
        · constructor <;>
          (try simp only [lexer_core_not_dedent, lexer_core_not_indent,
            if_false, lexer_core_stack]) <;>
          (try dsimp only) <;> (try simp) <;>
          (rcases lexer_push_indent_len l1 lvl with hp | hp <;> omega)

theorem lexer_next_token_step (l : Lexer) (h : 1 ≤ l.indent_stack.length) :
    1 ≤ (lexer_next_token l).2.indent_stack.length ∧
    (if (lexer_next_token l).1.type = .TOKEN_DEDENT then 1 else 0) +
        (lexer_next_token l).2.indent_stack.length ≤
      (if (lexer_next_token l).1.type = .TOKEN_INDENT then 1 else 0) +
        l.indent_stack.length := by
  unfold lexer_next_token
  dsimp only
  split
  · split
    · exact lexer_handle_step l h
    · rename_i hne
      have hEOF : (lexer_handle_indentation l).1.type = .TOKEN_EOF :=
        not_not.mp hne
      have hh := lexer_handle_step l h
      have h2 := hh.2
      rw [hEOF] at h2
      simp at h2
      have hs := lexer_core_stack (lexer_handle_indentation l).2
      obtain ⟨hd, hi⟩ := lexer_core_type (lexer_handle_indentation l).2
      rw [if_neg hd, if_neg hi, hs]
      exact ⟨hh.1, by omega⟩
  · have hs := lexer_core_stack l
    obtain ⟨hd, hi⟩ := lexer_core_type l
    rw [if_neg hd, if_neg hi, hs]
    exact ⟨hs ▸ h, by omega⟩

theorem lexTokens_count (fuel : Nat) : ∀ (l : Lexer),
    1 ≤ l.indent_stack.length →
    countTok .TOKEN_DEDENT (lexTokens fuel l) + 1 ≤
      countTok .TOKEN_INDENT (lexTokens fuel l) + l.indent_stack.length := by
  induction fuel with
  | zero =>
      intro l h
      simp only [lexTokens, countTok]
      omega
  | succ f ih =>
      intro l h
      have hstep := lexer_next_token_step l h
      rw [lexTokens]
      try dsimp only
      split
      · rename_i hEOF
        simp only [countTok, hEOF]
        simp
        omega
      · simp only [countTok]
        have hrest := ih (lexer_next_token l).2 hstep.1
        have hstep2 := hstep.2
        omega

/-- C6, counterexample: lexing `"a\n    b"` emits one Indent for the
deeper second line and no Dedent at all before Eof - the lexer neither
flushes open indentation levels at end of input nor ever emits the
dedents it parks in `dedent_count` - so the net Indent - Dedent count
at Eof is 1, not 0. -/
theorem C6_counterexample :
    lexTokens 64 (lexer_init "a\n    b") =
      [⟨.TOKEN_IDENTIFIER, some "a", 1, 2⟩, ⟨.TOKEN_NEWLINE, none, 2, 1⟩,
       ⟨.TOKEN_INDENT, none, 2, 5⟩, ⟨.TOKEN_IDENTIFIER, some "b", 2, 6⟩,
       ⟨.TOKEN_EOF, none, 2, 6⟩] ∧
    countTok .TOKEN_INDENT (lexTokens 64 (lexer_init "a\n    b")) = 1 ∧
    countTok .TOKEN_DEDENT (lexTokens 64 (lexer_init "a\n    b")) = 0 :=
  ⟨rfl, rfl, rfl⟩

/-- C6 (amended): on every input the token stream never holds more
Dedent than Indent tokens - each Indent pushes at most one level and
each Dedent pops at least one - but equality at Eof fails in general:
levels still open at end of input are never closed, and a multi-level
drop emits a single Dedent (see the counterexample). -/
theorem C6_amended (src : String) (fuel : Nat) :
    countTok .TOKEN_DEDENT (lexTokens fuel (lexer_init src)) ≤
      countTok .TOKEN_INDENT (lexTokens fuel (lexer_init src)) := by
  have h := lexTokens_count fuel (lexer_init src) (by simp [lexer_init])
  simp only [lexer_init] at h ⊢
  simp at h
  omega

/-! ## Claim C5 - compiler stack discipline -/

theorem StepsN_trans {ch : BytecodeChunk} {n m : Nat} {s t u : VMState}
    (h1 : StepsN ch n s t) (h2 : StepsN ch m t u) : StepsN ch (n + m) s u := by
  induction h1 with
  | refl _ => simpa using h2
  | step hstep _ ih =>
      rw [Nat.add_right_comm]
      exact .step hstep (ih h2)

theorem vmRun_stepsN {ch : BytecodeChunk} {n : Nat} {s t : VMState}
    (h : StepsN ch n s t) (f : Nat) :
    vmRun ch (n + f) s = vmRun ch f t := by
  induction h with
  | refl _ => rw [Nat.zero_add]
  | step hstep _ ih =>
      rename_i s2 t2 u2 n2 hrest
      have he : n2 + 1 + f = (n2 + f) + 1 := by omega
      rw [he, vmRun, hstep]
      exact ih

theorem code_byte_at {ch : BytecodeChunk} {pre c post : List Nat}
    (h : ch.code = pre ++ c ++ post) (j : Nat) (hj : j < c.length) :
    code_byte ch (pre.length + j) = c.getD j 0 := by
  unfold code_byte
  rw [h]
  rw [List.getD_append _ _ _ _ (by simp; omega)]
  rw [List.getD_append_right _ _ _ _ (by omega)]
  congr 1
  omega

theorem code_len_at {ch : BytecodeChunk} {pre c post : List Nat}
    (h : ch.code = pre ++ c ++ post) :
    ch.code.length = pre.length + c.length + post.length := by
  rw [h]
  simp
  omega

theorem vmStep_eof (ch : BytecodeChunk) (s : VMState)
    (hlen : s.ip < ch.code.length) (hop : code_byte ch s.ip = OP_EOF) :
    vmStep ch s = .done 0 { s with ip := s.ip + 1 } := by
  unfold vmStep
  rw [dif_neg (by omega)]
  simp only [hop, OP_NOOP, OP_EOF, OP_POP, OP_DUP, OP_SWAP, OP_LOAD_CONST, OP_LOAD_VAR,
    OP_STORE_VAR, OP_ADD, OP_SUB, OP_MUL, OP_DIV, OP_MOD, OP_NEG, OP_NOT,
    OP_EQ, OP_NEQ, OP_LT, OP_GT, OP_LTE, OP_GTE, OP_JUMP_IF_FALSE, OP_JUMP,
    OP_JUMP_IF_TRUE, OP_LOOP, OP_CALL, OP_RETURN, OP_CALL_METHOD,
    OP_NEW_ARRAY, OP_ARRAY_PUSH, OP_GET_INDEX, OP_SET_INDEX, OP_NEW_OBJECT,
    OP_SET_PROPERTY, OP_SET_NESTED_PROPERTY, OP_GET_PROPERTY,
    OP_COPY_PROPERTIES, OP_PRINT, OP_TO_STRING]
  norm_num

theorem vmStep_pop (ch : BytecodeChunk) (s : VMState) (v : RuntimeValue)
    (rest : List RuntimeValue) (hlen : s.ip < ch.code.length)
    (hop : code_byte ch s.ip = OP_POP) (hstk : s.stack = v :: rest) :
    vmStep ch s = .next { s with ip := s.ip + 1, stack := rest } := by
  unfold vmStep
  rw [dif_neg (by omega)]
  simp only [hop, hstk, OP_NOOP, OP_EOF, OP_POP, OP_DUP, OP_SWAP, OP_LOAD_CONST, OP_LOAD_VAR,
    OP_STORE_VAR, OP_ADD, OP_SUB, OP_MUL, OP_DIV, OP_MOD, OP_NEG, OP_NOT,
    OP_EQ, OP_NEQ, OP_LT, OP_GT, OP_LTE, OP_GTE, OP_JUMP_IF_FALSE, OP_JUMP,
    OP_JUMP_IF_TRUE, OP_LOOP, OP_CALL, OP_RETURN, OP_CALL_METHOD,
    OP_NEW_ARRAY, OP_ARRAY_PUSH, OP_GET_INDEX, OP_SET_INDEX, OP_NEW_OBJECT,
    OP_SET_PROPERTY, OP_SET_NESTED_PROPERTY, OP_GET_PROPERTY,
    OP_COPY_PROPERTIES, OP_PRINT, OP_TO_STRING]
  norm_num

theorem vmStep_load_const (ch : BytecodeChunk) (s : VMState)
    (hlen : s.ip < ch.code.length) (hop : code_byte ch s.ip = OP_LOAD_CONST)
    (hst : s.stack.length < 256) :
    vmStep ch s = .next { s with ip := s.ip + 2, stack := ch.constants.getD (code_byte ch (s.ip + 1)) .nullV :: s.stack } := by
  unfold vmStep
  rw [dif_neg (by omega)]
  simp only [hop, OP_NOOP, OP_EOF, OP_POP, OP_DUP, OP_SWAP, OP_LOAD_CONST, OP_LOAD_VAR,
    OP_STORE_VAR, OP_ADD, OP_SUB, OP_MUL, OP_DIV, OP_MOD, OP_NEG, OP_NOT,
    OP_EQ, OP_NEQ, OP_LT, OP_GT, OP_LTE, OP_GTE, OP_JUMP_IF_FALSE, OP_JUMP,
    OP_JUMP_IF_TRUE, OP_LOOP, OP_CALL, OP_RETURN, OP_CALL_METHOD,
    OP_NEW_ARRAY, OP_ARRAY_PUSH, OP_GET_INDEX, OP_SET_INDEX, OP_NEW_OBJECT,
    OP_SET_PROPERTY, OP_SET_NESTED_PROPERTY, OP_GET_PROPERTY,
    OP_COPY_PROPERTIES, OP_PRINT, OP_TO_STRING]
  norm_num [vm_push_chk, Nat.not_le.mpr hst]
  try rw [if_neg (by omega)]
  try norm_num [Nat.add_assoc]

theorem vmStep_load_var (ch : BytecodeChunk) (s : VMState)
    (hlen : s.ip < ch.code.length) (hop : code_byte ch s.ip = OP_LOAD_VAR)
    (hst : s.stack.length < 256) :
    vmStep ch s = .next { s with ip := s.ip + 3, stack := g_get s.globals (read_u16 ch (s.ip + 1)) :: s.stack } := by
  unfold vmStep
  rw [dif_neg (by omega)]
  simp only [hop, OP_NOOP, OP_EOF, OP_POP, OP_DUP, OP_SWAP, OP_LOAD_CONST, OP_LOAD_VAR,
    OP_STORE_VAR, OP_ADD, OP_SUB, OP_MUL, OP_DIV, OP_MOD, OP_NEG, OP_NOT,
    OP_EQ, OP_NEQ, OP_LT, OP_GT, OP_LTE, OP_GTE, OP_JUMP_IF_FALSE, OP_JUMP,
    OP_JUMP_IF_TRUE, OP_LOOP, OP_CALL, OP_RETURN, OP_CALL_METHOD,
    OP_NEW_ARRAY, OP_ARRAY_PUSH, OP_GET_INDEX, OP_SET_INDEX, OP_NEW_OBJECT,
    OP_SET_PROPERTY, OP_SET_NESTED_PROPERTY, OP_GET_PROPERTY,
    OP_COPY_PROPERTIES, OP_PRINT, OP_TO_STRING]
  norm_num [vm_push_chk]
  try rw [if_neg (by omega)]
  try norm_num [Nat.add_assoc]

theorem vmStep_store_var (ch : BytecodeChunk) (s : VMState) (v : RuntimeValue)
    (rest : List RuntimeValue) (hlen : s.ip < ch.code.length)
    (hop : code_byte ch s.ip = OP_STORE_VAR) (hstk : s.stack = v :: rest) :
    vmStep ch s = .next { s with ip := s.ip + 3, stack := rest, globals := s.globals.set (read_u16 ch (s.ip + 1)) v } := by
  unfold vmStep
  rw [dif_neg (by omega)]
  simp only [hop, hstk, OP_NOOP, OP_EOF, OP_POP, OP_DUP, OP_SWAP, OP_LOAD_CONST, OP_LOAD_VAR,
    OP_STORE_VAR, OP_ADD, OP_SUB, OP_MUL, OP_DIV, OP_MOD, OP_NEG, OP_NOT,
    OP_EQ, OP_NEQ, OP_LT, OP_GT, OP_LTE, OP_GTE, OP_JUMP_IF_FALSE, OP_JUMP,
    OP_JUMP_IF_TRUE, OP_LOOP, OP_CALL, OP_RETURN, OP_CALL_METHOD,
    OP_NEW_ARRAY, OP_ARRAY_PUSH, OP_GET_INDEX, OP_SET_INDEX, OP_NEW_OBJECT,
    OP_SET_PROPERTY, OP_SET_NESTED_PROPERTY, OP_GET_PROPERTY,
    OP_COPY_PROPERTIES, OP_PRINT, OP_TO_STRING]
  norm_num [vm_pop, Nat.add_assoc]

theorem vmStep_add_num (ch : BytecodeChunk) (s : VMState) (x y : ℚ)
    (rest : List RuntimeValue) (hlen : s.ip < ch.code.length)
    (hop : code_byte ch s.ip = OP_ADD)
    (hstk : s.stack = .numberV y :: .numberV x :: rest)
    (hcap : rest.length < 256) :
    vmStep ch s = .next { s with ip := s.ip + 1, stack := .numberV (x + y) :: rest } := by
  unfold vmStep
  rw [dif_neg (by omega)]
  simp only [hop, hstk, OP_NOOP, OP_EOF, OP_POP, OP_DUP, OP_SWAP, OP_LOAD_CONST, OP_LOAD_VAR,
    OP_STORE_VAR, OP_ADD, OP_SUB, OP_MUL, OP_DIV, OP_MOD, OP_NEG, OP_NOT,
    OP_EQ, OP_NEQ, OP_LT, OP_GT, OP_LTE, OP_GTE, OP_JUMP_IF_FALSE, OP_JUMP,
    OP_JUMP_IF_TRUE, OP_LOOP, OP_CALL, OP_RETURN, OP_CALL_METHOD,
    OP_NEW_ARRAY, OP_ARRAY_PUSH, OP_GET_INDEX, OP_SET_INDEX, OP_NEW_OBJECT,
    OP_SET_PROPERTY, OP_SET_NESTED_PROPERTY, OP_GET_PROPERTY,
    OP_COPY_PROPERTIES, OP_PRINT, OP_TO_STRING]
  norm_num [vm_pop, vm_add, vm_push_chk]
  rw [if_neg (by omega)]

theorem vmStep_sub_num (ch : BytecodeChunk) (s : VMState) (x y : ℚ)
    (rest : List RuntimeValue) (hlen : s.ip < ch.code.length)
    (hop : code_byte ch s.ip = OP_SUB)
    (hstk : s.stack = .numberV y :: .numberV x :: rest)
    (hcap : rest.length < 256) :
    vmStep ch s = .next { s with ip := s.ip + 1, stack := .numberV (x - y) :: rest } := by
  unfold vmStep
  rw [dif_neg (by omega)]
  simp only [hop, hstk, OP_NOOP, OP_EOF, OP_POP, OP_DUP, OP_SWAP, OP_LOAD_CONST, OP_LOAD_VAR,
    OP_STORE_VAR, OP_ADD, OP_SUB, OP_MUL, OP_DIV, OP_MOD, OP_NEG, OP_NOT,
    OP_EQ, OP_NEQ, OP_LT, OP_GT, OP_LTE, OP_GTE, OP_JUMP_IF_FALSE, OP_JUMP,
    OP_JUMP_IF_TRUE, OP_LOOP, OP_CALL, OP_RETURN, OP_CALL_METHOD,
    OP_NEW_ARRAY, OP_ARRAY_PUSH, OP_GET_INDEX, OP_SET_INDEX, OP_NEW_OBJECT,
    OP_SET_PROPERTY, OP_SET_NESTED_PROPERTY, OP_GET_PROPERTY,
    OP_COPY_PROPERTIES, OP_PRINT, OP_TO_STRING]
  norm_num [vm_pop, vm_push_chk]
  rw [if_neg (by omega)]

theorem vmStep_mul_num (ch : BytecodeChunk) (s : VMState) (x y : ℚ)
    (rest : List RuntimeValue) (hlen : s.ip < ch.code.length)
    (hop : code_byte ch s.ip = OP_MUL)
    (hstk : s.stack = .numberV y :: .numberV x :: rest)
    (hcap : rest.length < 256) :
    vmStep ch s = .next { s with ip := s.ip + 1, stack := .numberV (x * y) :: rest } := by
  unfold vmStep
  rw [dif_neg (by omega)]
  simp only [hop, hstk, OP_NOOP, OP_EOF, OP_POP, OP_DUP, OP_SWAP, OP_LOAD_CONST, OP_LOAD_VAR,
    OP_STORE_VAR, OP_ADD, OP_SUB, OP_MUL, OP_DIV, OP_MOD, OP_NEG, OP_NOT,
    OP_EQ, OP_NEQ, OP_LT, OP_GT, OP_LTE, OP_GTE, OP_JUMP_IF_FALSE, OP_JUMP,
    OP_JUMP_IF_TRUE, OP_LOOP, OP_CALL, OP_RETURN, OP_CALL_METHOD,
    OP_NEW_ARRAY, OP_ARRAY_PUSH, OP_GET_INDEX, OP_SET_INDEX, OP_NEW_OBJECT,
    OP_SET_PROPERTY, OP_SET_NESTED_PROPERTY, OP_GET_PROPERTY,
    OP_COPY_PROPERTIES, OP_PRINT, OP_TO_STRING]
  norm_num [vm_pop, vm_push_chk]
  rw [if_neg (by omega)]

theorem vmStep_print (ch : BytecodeChunk) (s : VMState) (v : RuntimeValue)
    (rest : List RuntimeValue) (hlen : s.ip < ch.code.length)
    (hop : code_byte ch s.ip = OP_PRINT) (hstk : s.stack = v :: rest)
    (hcap : rest.length < 256) :
    vmStep ch s = .next { s with ip := s.ip + 1, stack := .nullV :: rest, output := s.output ++ [vm_print_line v] } := by
  unfold vmStep
  rw [dif_neg (by omega)]
  simp only [hop, hstk, OP_NOOP, OP_EOF, OP_POP, OP_DUP, OP_SWAP, OP_LOAD_CONST, OP_LOAD_VAR,
    OP_STORE_VAR, OP_ADD, OP_SUB, OP_MUL, OP_DIV, OP_MOD, OP_NEG, OP_NOT,
    OP_EQ, OP_NEQ, OP_LT, OP_GT, OP_LTE, OP_GTE, OP_JUMP_IF_FALSE, OP_JUMP,
    OP_JUMP_IF_TRUE, OP_LOOP, OP_CALL, OP_RETURN, OP_CALL_METHOD,
    OP_NEW_ARRAY, OP_ARRAY_PUSH, OP_GET_INDEX, OP_SET_INDEX, OP_NEW_OBJECT,
    OP_SET_PROPERTY, OP_SET_NESTED_PROPERTY, OP_GET_PROPERTY,
    OP_COPY_PROPERTIES, OP_PRINT, OP_TO_STRING]
  norm_num [vm_pop, vm_push_chk]
  rw [if_neg (by omega)]

theorem emit_constant_shape (cs : CompState) (w : RuntimeValue) :
    emit_constant cs w =
      { chunk := ⟨cs.chunk.code ++ [OP_LOAD_CONST, cs.chunk.constants.length % 256], cs.chunk.constants ++ [w]⟩,
        symtab := cs.symtab, errors := cs.errors } := by
  simp [emit_constant, add_constant, vm_chunk_add_constant, emit_byte,
    vm_chunk_write_byte, OP_LOAD_CONST]

theorem load_const_exec {ch : BytecodeChunk} {pre post : List Nat}
    {C0 C1 : List RuntimeValue} {w : RuntimeValue}
    (hcode : ch.code = pre ++ [OP_LOAD_CONST, C0.length % 256] ++ post)
    (hconst : ch.constants = C0 ++ [w] ++ C1)
    (hk : C0.length + 1 ≤ 256)
    (stk g : List RuntimeValue) (out : List String) (hstk : stk.length < 256) :
    StepsN ch 1 ⟨pre.length, stk, g, out⟩ ⟨pre.length + 2, w :: stk, g, out⟩ := by
  have hlen : pre.length < ch.code.length := by
    have := code_len_at hcode
    simp at this
    omega
  have hop : code_byte ch pre.length = OP_LOAD_CONST := by
    have := code_byte_at hcode 0 (by norm_num)
    simpa using this
  have hop1 : code_byte ch (pre.length + 1) = C0.length % 256 := by
    have := code_byte_at hcode 1 (by norm_num)
    simpa using this
  have hval : ch.constants.getD (code_byte ch (pre.length + 1)) .nullV = w := by
    rw [hop1, Nat.mod_eq_of_lt (by omega), hconst]
    rw [List.getD_append _ _ _ _ (by simp)]
    rw [List.getD_append_right _ _ _ _ (by omega)]
    simp
  have hstep := vmStep_load_const ch ⟨pre.length, stk, g, out⟩ hlen hop hstk
  rw [hval] at hstep
  exact .step hstep (.refl _)

theorem load_var_exec {ch : BytecodeChunk} {pre post : List Nat} {b1 b2 : Nat}
    (hcode : ch.code = pre ++ [OP_LOAD_VAR, b1, b2] ++ post)
    (stk g : List RuntimeValue) (out : List String) (hstk : stk.length < 256) :
    StepsN ch 1 ⟨pre.length, stk, g, out⟩
      ⟨pre.length + 3, g_get g (b1 * 256 + b2) :: stk, g, out⟩ := by
  have hlen : pre.length < ch.code.length := by
    have := code_len_at hcode
    simp at this
    omega
  have hop : code_byte ch pre.length = OP_LOAD_VAR := by
    have := code_byte_at hcode 0 (by norm_num)
    simpa using this
  have hop1 : code_byte ch (pre.length + 1) = b1 := by
    have := code_byte_at hcode 1 (by norm_num)
    simpa using this
  have hop2 : code_byte ch (pre.length + 2) = b2 := by
    have := code_byte_at hcode 2 (by norm_num)
    simpa [Nat.add_assoc] using this
  have hstep := vmStep_load_var ch ⟨pre.length, stk, g, out⟩ hlen hop hstk
  rw [show read_u16 ch (pre.length + 1) = b1 * 256 + b2 from by
    unfold read_u16
    rw [hop1, show pre.length + 1 + 1 = pre.length + 2 from by omega, hop2]] at hstep
  exact .step hstep (.refl _)

theorem numExpr_simple {e : ASTNode} (h : numExpr e = true) :
    simpleExpr e = true := by
  simp [simpleExpr, h]

theorem exprDepth_le_size : ∀ (d : Nat) (e : ASTNode), exprDepth e ≤ d →
    exprDepth e ≤ exprSize e := by
  intro d
  induction d with
  | zero =>
      intro e hd
      exact absurd hd (by cases e <;> simp [exprDepth])
  | succ d ih =>
      intro e hd
      cases e <;> simp [exprDepth, exprSize]
      case binary_op op a b =>
        simp only [exprDepth] at hd
        have hmax : max (exprDepth a) (exprDepth b) ≤ d := by omega
        have ha := ih a (le_trans (Nat.le_max_left _ _) hmax)
        have hb := ih b (le_trans (Nat.le_max_right _ _) hmax)
        omega

theorem one_le_exprDepth (e : ASTNode) : 1 ≤ exprDepth e := by
  cases e <;> simp [exprDepth]

theorem simpleExpr_sim :
    ∀ (d : Nat) (e : ASTNode), simpleExpr e = true → exprDepth e ≤ d →
    ∀ (f : Nat) (cs : CompState), exprDepth e ≤ f →
    ∃ (c : List Nat) (K : List RuntimeValue) (st2 : SymbolTable),
      compile_expression f e cs =
        { chunk := ⟨cs.chunk.code ++ c, cs.chunk.constants ++ K⟩, symtab := st2, errors := cs.errors } ∧
      1 ≤ c.length ∧ c.length ≤ 4 * exprSize e ∧ K.length ≤ exprSize e ∧
      ((numExpr e || constLit e) = true → st2 = cs.symtab) ∧
      (∀ (ch : BytecodeChunk) (pre post : List Nat) (C1 : List RuntimeValue),
        ch.code = pre ++ c ++ post →
        ch.constants = cs.chunk.constants ++ K ++ C1 →
        cs.chunk.constants.length + K.length ≤ 256 →
        ∀ (stk g : List RuntimeValue) (out : List String),
          stk.length + exprDepth e ≤ 256 →
          ∃ (n : Nat) (v : RuntimeValue),
            n ≤ c.length ∧
            (numExpr e = true → ∃ q, v = .numberV q) ∧
            StepsN ch n ⟨pre.length, stk, g, out⟩
              ⟨pre.length + c.length, v :: stk, g, out⟩) := by
  intro d
  induction d with
  | zero =>
      intro e he hd
      exact absurd hd (by cases e <;> simp [exprDepth])
  | succ d ih =>
      intro e he hd f cs hf
      cases f with
      | zero => exact absurd hf (by cases e <;> simp [exprDepth])
      | succ f1 =>
      cases e with
      | literal tt v =>
          cases tt with
          | TOKEN_NUMBER =>
              refine ⟨[OP_LOAD_CONST, cs.chunk.constants.length % 256],
                [.numberV (atof v)], cs.symtab, emit_constant_shape cs _, by norm_num,
                by norm_num [exprSize], by norm_num [exprSize], fun _ => rfl, ?_⟩
              intro ch pre post C1 hcode hconst hk stk g out hstk
              refine ⟨1, .numberV (atof v), by norm_num, fun _ => ⟨_, rfl⟩, ?_⟩
              have hx := @load_const_exec _ pre post cs.chunk.constants C1 (.numberV (atof v)) hcode
                (by simpa using hconst) (by simpa using hk) stk g out
                (by simp [exprDepth] at hstk; omega)
              simpa using hx
          | TOKEN_STRING =>
              refine ⟨[OP_LOAD_CONST, cs.chunk.constants.length % 256],
                [.stringV v], cs.symtab, emit_constant_shape cs _, by norm_num,
                by norm_num [exprSize], by norm_num [exprSize], fun _ => rfl, ?_⟩
              intro ch pre post C1 hcode hconst hk stk g out hstk
              refine ⟨1, .stringV v, by norm_num, by intro hne; exact absurd hne (by simp [numExpr]), ?_⟩
              have hx := @load_const_exec _ pre post cs.chunk.constants C1 (.stringV v) hcode
                (by simpa using hconst) (by simpa using hk) stk g out
                (by simp [exprDepth] at hstk; omega)
              simpa using hx
          | TOKEN_BOOLEAN =>
              refine ⟨[OP_LOAD_CONST, cs.chunk.constants.length % 256],
                [.booleanV (v = "true")], cs.symtab, emit_constant_shape cs _, by norm_num,
                by norm_num [exprSize], by norm_num [exprSize], fun _ => rfl, ?_⟩
              intro ch pre post C1 hcode hconst hk stk g out hstk
              refine ⟨1, .booleanV (v = "true"), by norm_num, by intro hne; exact absurd hne (by simp [numExpr]), ?_⟩
              have hx := @load_const_exec _ pre post cs.chunk.constants C1 (.booleanV (v = "true")) hcode
                (by simpa using hconst) (by simpa using hk) stk g out
                (by simp [exprDepth] at hstk; omega)
              simpa using hx
          | TOKEN_NULL =>
              refine ⟨[OP_LOAD_CONST, cs.chunk.constants.length % 256],
                [.nullV], cs.symtab, emit_constant_shape cs _, by norm_num,
                by norm_num [exprSize], by norm_num [exprSize], fun _ => rfl, ?_⟩
              intro ch pre post C1 hcode hconst hk stk g out hstk
              refine ⟨1, .nullV, by norm_num, by intro hne; exact absurd hne (by simp [numExpr]), ?_⟩
              have hx := @load_const_exec _ pre post cs.chunk.constants C1 (.nullV) hcode
                (by simpa using hconst) (by simpa using hk) stk g out
                (by simp [exprDepth] at hstk; omega)
              simpa using hx
          | TOKEN_IDENTIFIER => exact absurd he (by simp [simpleExpr, numExpr, constLit])
          | TOKEN_OPERATOR => exact absurd he (by simp [simpleExpr, numExpr, constLit])
          | TOKEN_KEYWORD => exact absurd he (by simp [simpleExpr, numExpr, constLit])
          | TOKEN_PUNCT => exact absurd he (by simp [simpleExpr, numExpr, constLit])
          | TOKEN_INDENT => exact absurd he (by simp [simpleExpr, numExpr, constLit])
          | TOKEN_DEDENT => exact absurd he (by simp [simpleExpr, numExpr, constLit])
          | TOKEN_NEWLINE => exact absurd he (by simp [simpleExpr, numExpr, constLit])
          | TOKEN_EOF => exact absurd he (by simp [simpleExpr, numExpr, constLit])
          | TOKEN_ERROR => exact absurd he (by simp [simpleExpr, numExpr, constLit])
      | var_ref name =>
          rcases hp : symbol_table_get_or_add cs.symtab name false with ⟨vi, st⟩
          refine ⟨[OP_LOAD_VAR, vi / 256 % 256 % 256, vi % 256 % 256], [], st, ?_,
            by norm_num, by norm_num [exprSize], by norm_num [exprSize],
            (by intro hcon; exact absurd hcon (by simp [numExpr, constLit])), ?_⟩
          · show compile_expression (f1 + 1) (.var_ref name) cs = _
            simp only [compile_expression, hp]
            simp [emit_u16, emit_byte, vm_chunk_write_byte, OP_LOAD_VAR]
          · intro ch pre post C1 hcode hconst hk stk g out hstk
            refine ⟨1, g_get g (vi / 256 % 256 % 256 * 256 + vi % 256 % 256),
              by norm_num, (by intro hne; exact absurd hne (by simp [numExpr])), ?_⟩
            have hx := load_var_exec hcode stk g out
              (by simp [exprDepth] at hstk; omega)
            simpa using hx
      | binary_op op a b =>
          have he2 : (op = "+" ∨ op = "-" ∨ op = "*") ∧ numExpr a = true ∧
              numExpr b = true := by
            simp [simpleExpr, numExpr, constLit] at he
            tauto
          obtain ⟨hop, ha, hb⟩ := he2
          have hda : exprDepth a ≤ d := by
            simp only [exprDepth] at hd
            have := Nat.le_max_left (exprDepth a) (exprDepth b)
            omega
          have hdb : exprDepth b ≤ d := by
            simp only [exprDepth] at hd
            have := Nat.le_max_right (exprDepth a) (exprDepth b)
            omega
          have hfa : exprDepth a ≤ f1 := by
            simp only [exprDepth] at hf
            have := Nat.le_max_left (exprDepth a) (exprDepth b)
            omega
          have hfb : exprDepth b ≤ f1 := by
            simp only [exprDepth] at hf
            have := Nat.le_max_right (exprDepth a) (exprDepth b)
            omega
          obtain ⟨ca, Ka, sta, hca, h1a, h4a, hKa, hsta, hexa⟩ :=
            ih a (numExpr_simple ha) hda f1 cs hfa
          obtain ⟨cb, Kb, stb, hcb, h1b, h4b, hKb, hstb, hexb⟩ :=
            ih b (numExpr_simple hb) hdb f1
              (CompState.mk ⟨cs.chunk.code ++ ca, cs.chunk.constants ++ Ka⟩ sta cs.errors) hfb
          rcases hop with h | h | h
          · have hsubst : op = "+" := h
            subst hsubst
            refine ⟨(ca ++ cb) ++ [OP_ADD], Ka ++ Kb, stb, ?_, by simp only [List.length_append, List.length_cons, List.length_nil]; omega, ?_, ?_, ?_, ?_⟩
            · show compile_expression (f1 + 1) (.binary_op "+" a b) cs = _
              simp only [compile_expression]
              rw [hca, hcb]
              simp [emit_byte, vm_chunk_write_byte, OP_ADD]
            · simp only [List.length_append, exprSize, List.length_cons,
                List.length_nil]
              omega
            · simp only [List.length_append, exprSize]
              omega
            · intro _
              rw [hstb (by simp [ha, hb]), hsta (by simp [ha, hb])]
            · intro ch pre post C1 hcode hconst hk stk g out hstk
              have hstk2 : stk.length + 2 ≤ 256 := by
                simp only [exprDepth] at hstk
                have h1d := one_le_exprDepth a
                have h2d := one_le_exprDepth b
                have := Nat.le_max_left (exprDepth a) (exprDepth b)
                omega
              have hcodea : ch.code = pre ++ ca ++ (cb ++ [OP_ADD] ++ post) := by
                rw [hcode]
                simp
              have hconsta : ch.constants = cs.chunk.constants ++ Ka ++ (Kb ++ C1) := by
                rw [hconst]
                simp
              have hka : cs.chunk.constants.length + Ka.length ≤ 256 := by
                simp at hk
                omega
              obtain ⟨na, va, hna, hva, hsa⟩ := hexa ch pre (cb ++ [OP_ADD] ++ post)
                (Kb ++ C1) hcodea hconsta hka stk g out (by
                  simp only [exprDepth] at hstk ⊢
                  have := Nat.le_max_left (exprDepth a) (exprDepth b)
                  omega)
              obtain ⟨x, rfl⟩ := hva ha
              have hcodeb : ch.code = (pre ++ ca) ++ cb ++ ([OP_ADD] ++ post) := by
                rw [hcode]
                simp
              have hconstb : ch.constants =
                  (CompState.mk ⟨cs.chunk.code ++ ca, cs.chunk.constants ++ Ka⟩ sta cs.errors).chunk.constants ++ Kb ++ C1 := by
                rw [hconst]
                simp
              have hkb : (CompState.mk ⟨cs.chunk.code ++ ca, cs.chunk.constants ++ Ka⟩ sta cs.errors).chunk.constants.length + Kb.length ≤ 256 := by
                simp at hk ⊢
                omega
              obtain ⟨nb, vb, hnb, hvb, hsb⟩ := hexb ch (pre ++ ca) ([OP_ADD] ++ post)
                C1 hcodeb hconstb hkb (.numberV x :: stk) g out (by
                  simp only [exprDepth, List.length_cons] at hstk ⊢
                  have := Nat.le_max_right (exprDepth a) (exprDepth b)
                  omega)
              obtain ⟨y, rfl⟩ := hvb hb
              simp only [List.length_append] at hsb
              have hlen3 : pre.length + ca.length + cb.length < ch.code.length := by
                have := code_len_at hcode
                simp at this
                omega
              have hop3 : code_byte ch (pre.length + ca.length + cb.length) = OP_ADD := by
                have h0 := code_byte_at hcode (ca.length + cb.length) (by simp)
                rw [List.getD_append_right _ _ _ _ (by simp)] at h0
                simp at h0
                rw [← Nat.add_assoc] at h0
                exact h0
              have hstep3 := vmStep_add_num ch
                ⟨pre.length + ca.length + cb.length, .numberV y :: .numberV x :: stk, g, out⟩
                x y stk hlen3 hop3 rfl (by omega)
              refine ⟨na + (nb + 1), .numberV (x + y), by simp; omega,
                fun _ => ⟨_, rfl⟩, ?_⟩
              have hiplen : pre.length + ((ca ++ cb) ++ [OP_ADD]).length =
                  pre.length + ca.length + cb.length + 1 := by
                simp
                omega
              rw [hiplen]
              exact StepsN_trans hsa (StepsN_trans hsb (StepsN.step hstep3 (.refl _)))
          · have hsubst : op = "-" := h
            subst hsubst
            refine ⟨(ca ++ cb) ++ [OP_SUB], Ka ++ Kb, stb, ?_, by simp only [List.length_append, List.length_cons, List.length_nil]; omega, ?_, ?_, ?_, ?_⟩
            · show compile_expression (f1 + 1) (.binary_op "-" a b) cs = _
              simp only [compile_expression]
              rw [hca, hcb]
              simp [emit_byte, vm_chunk_write_byte, OP_SUB]
            · simp only [List.length_append, exprSize, List.length_cons,
                List.length_nil]
              omega
            · simp only [List.length_append, exprSize]
              omega
            · intro _
              rw [hstb (by simp [ha, hb]), hsta (by simp [ha, hb])]
            · intro ch pre post C1 hcode hconst hk stk g out hstk
              have hstk2 : stk.length + 2 ≤ 256 := by
                simp only [exprDepth] at hstk
                have h1d := one_le_exprDepth a
                have h2d := one_le_exprDepth b
                have := Nat.le_max_left (exprDepth a) (exprDepth b)
                omega
              have hcodea : ch.code = pre ++ ca ++ (cb ++ [OP_SUB] ++ post) := by
                rw [hcode]
                simp
              have hconsta : ch.constants = cs.chunk.constants ++ Ka ++ (Kb ++ C1) := by
                rw [hconst]
                simp
              have hka : cs.chunk.constants.length + Ka.length ≤ 256 := by
                simp at hk
                omega
              obtain ⟨na, va, hna, hva, hsa⟩ := hexa ch pre (cb ++ [OP_SUB] ++ post)
                (Kb ++ C1) hcodea hconsta hka stk g out (by
                  simp only [exprDepth] at hstk ⊢
                  have := Nat.le_max_left (exprDepth a) (exprDepth b)
                  omega)
              obtain ⟨x, rfl⟩ := hva ha
              have hcodeb : ch.code = (pre ++ ca) ++ cb ++ ([OP_SUB] ++ post) := by
                rw [hcode]
                simp
              have hconstb : ch.constants =
                  (CompState.mk ⟨cs.chunk.code ++ ca, cs.chunk.constants ++ Ka⟩ sta cs.errors).chunk.constants ++ Kb ++ C1 := by
                rw [hconst]
                simp
              have hkb : (CompState.mk ⟨cs.chunk.code ++ ca, cs.chunk.constants ++ Ka⟩ sta cs.errors).chunk.constants.length + Kb.length ≤ 256 := by
                simp at hk ⊢
                omega
              obtain ⟨nb, vb, hnb, hvb, hsb⟩ := hexb ch (pre ++ ca) ([OP_SUB] ++ post)
                C1 hcodeb hconstb hkb (.numberV x :: stk) g out (by
                  simp only [exprDepth, List.length_cons] at hstk ⊢
                  have := Nat.le_max_right (exprDepth a) (exprDepth b)
                  omega)
              obtain ⟨y, rfl⟩ := hvb hb
              simp only [List.length_append] at hsb
              have hlen3 : pre.length + ca.length + cb.length < ch.code.length := by
                have := code_len_at hcode
                simp at this
                omega
              have hop3 : code_byte ch (pre.length + ca.length + cb.length) = OP_SUB := by
                have h0 := code_byte_at hcode (ca.length + cb.length) (by simp)
                rw [List.getD_append_right _ _ _ _ (by simp)] at h0
                simp at h0
                rw [← Nat.add_assoc] at h0
                exact h0
              have hstep3 := vmStep_sub_num ch
                ⟨pre.length + ca.length + cb.length, .numberV y :: .numberV x :: stk, g, out⟩
                x y stk hlen3 hop3 rfl (by omega)
              refine ⟨na + (nb + 1), .numberV (x - y), by simp; omega,
                fun _ => ⟨_, rfl⟩, ?_⟩
              have hiplen : pre.length + ((ca ++ cb) ++ [OP_SUB]).length =
                  pre.length + ca.length + cb.length + 1 := by
                simp
                omega
              rw [hiplen]
              exact StepsN_trans hsa (StepsN_trans hsb (StepsN.step hstep3 (.refl _)))
          · have hsubst : op = "*" := h
            subst hsubst
            refine ⟨(ca ++ cb) ++ [OP_MUL], Ka ++ Kb, stb, ?_, by simp only [List.length_append, List.length_cons, List.length_nil]; omega, ?_, ?_, ?_, ?_⟩
            · show compile_expression (f1 + 1) (.binary_op "*" a b) cs = _
              simp only [compile_expression]
              rw [hca, hcb]
              simp [emit_byte, vm_chunk_write_byte, OP_MUL]
            · simp only [List.length_append, exprSize, List.length_cons,
                List.length_nil]
              omega
            · simp only [List.length_append, exprSize]
              omega
            · intro _
              rw [hstb (by simp [ha, hb]), hsta (by simp [ha, hb])]
            · intro ch pre post C1 hcode hconst hk stk g out hstk
              have hstk2 : stk.length + 2 ≤ 256 := by
                simp only [exprDepth] at hstk
                have h1d := one_le_exprDepth a
                have h2d := one_le_exprDepth b
                have := Nat.le_max_left (exprDepth a) (exprDepth b)
                omega
              have hcodea : ch.code = pre ++ ca ++ (cb ++ [OP_MUL] ++ post) := by
                rw [hcode]
                simp
              have hconsta : ch.constants = cs.chunk.constants ++ Ka ++ (Kb ++ C1) := by
                rw [hconst]
                simp
              have hka : cs.chunk.constants.length + Ka.length ≤ 256 := by
                simp at hk
                omega
              obtain ⟨na, va, hna, hva, hsa⟩ := hexa ch pre (cb ++ [OP_MUL] ++ post)
                (Kb ++ C1) hcodea hconsta hka stk g out (by
                  simp only [exprDepth] at hstk ⊢
                  have := Nat.le_max_left (exprDepth a) (exprDepth b)
                  omega)
              obtain ⟨x, rfl⟩ := hva ha
              have hcodeb : ch.code = (pre ++ ca) ++ cb ++ ([OP_MUL] ++ post) := by
                rw [hcode]
                simp
              have hconstb : ch.constants =
                  (CompState.mk ⟨cs.chunk.code ++ ca, cs.chunk.constants ++ Ka⟩ sta cs.errors).chunk.constants ++ Kb ++ C1 := by
                rw [hconst]
                simp
              have hkb : (CompState.mk ⟨cs.chunk.code ++ ca, cs.chunk.constants ++ Ka⟩ sta cs.errors).chunk.constants.length + Kb.length ≤ 256 := by
                simp at hk ⊢
                omega
              obtain ⟨nb, vb, hnb, hvb, hsb⟩ := hexb ch (pre ++ ca) ([OP_MUL] ++ post)
                C1 hcodeb hconstb hkb (.numberV x :: stk) g out (by
                  simp only [exprDepth, List.length_cons] at hstk ⊢
                  have := Nat.le_max_right (exprDepth a) (exprDepth b)
                  omega)
              obtain ⟨y, rfl⟩ := hvb hb
              simp only [List.length_append] at hsb
              have hlen3 : pre.length + ca.length + cb.length < ch.code.length := by
                have := code_len_at hcode
                simp at this
                omega
              have hop3 : code_byte ch (pre.length + ca.length + cb.length) = OP_MUL := by
                have h0 := code_byte_at hcode (ca.length + cb.length) (by simp)
                rw [List.getD_append_right _ _ _ _ (by simp)] at h0
                simp at h0
                rw [← Nat.add_assoc] at h0
                exact h0
              have hstep3 := vmStep_mul_num ch
                ⟨pre.length + ca.length + cb.length, .numberV y :: .numberV x :: stk, g, out⟩
                x y stk hlen3 hop3 rfl (by omega)
              refine ⟨na + (nb + 1), .numberV (x * y), by simp; omega,
                fun _ => ⟨_, rfl⟩, ?_⟩
              have hiplen : pre.length + ((ca ++ cb) ++ [OP_MUL]).length =
                  pre.length + ca.length + cb.length + 1 := by
                simp
                omega
              rw [hiplen]
              exact StepsN_trans hsa (StepsN_trans hsb (StepsN.step hstep3 (.refl _)))
      | assignment n v => exact absurd he (by simp [simpleExpr, numExpr, constLit])
      | unary_op o a => exact absurd he (by simp [simpleExpr, numExpr, constLit])
      | variable_decl a b c dd => exact absurd he (by simp [simpleExpr, numExpr, constLit])
      | function_call a b => exact absurd he (by simp [simpleExpr, numExpr, constLit])
      | if_statement a b c => exact absurd he (by simp [simpleExpr, numExpr, constLit])
      | while_loop a b => exact absurd he (by simp [simpleExpr, numExpr, constLit])
      | for_loop a b c dd => exact absurd he (by simp [simpleExpr, numExpr, constLit])
      | block a => exact absurd he (by simp [simpleExpr, numExpr, constLit])
      | function_def a b c => exact absurd he (by simp [simpleExpr, numExpr, constLit])
      | array_literal a => exact absurd he (by simp [simpleExpr, numExpr, constLit])
      | index_access a b => exact absurd he (by simp [simpleExpr, numExpr, constLit])
      | object_literal a b => exact absurd he (by simp [simpleExpr, numExpr, constLit])
      | property_access a b => exact absurd he (by simp [simpleExpr, numExpr, constLit])
      | method_call a b c => exact absurd he (by simp [simpleExpr, numExpr, constLit])
      | property_assignment a b c => exact absurd he (by simp [simpleExpr, numExpr, constLit])
      | range a b => exact absurd he (by simp [simpleExpr, numExpr, constLit])
      | naked_iterator a b c dd => exact absurd he (by simp [simpleExpr, numExpr, constLit])

theorem compile_expr_list_nil (f : Nat) (cs : CompState) :
    compile_expr_list f [] cs = cs := by
  cases f <;> rfl

theorem store_var_exec {ch : BytecodeChunk} {pre post : List Nat} {b1 b2 : Nat}
    (hcode : ch.code = pre ++ [OP_STORE_VAR, b1, b2] ++ post)
    (v : RuntimeValue) (stk g : List RuntimeValue) (out : List String) :
    StepsN ch 1 ⟨pre.length, v :: stk, g, out⟩
      ⟨pre.length + 3, stk, g.set (b1 * 256 + b2) v, out⟩ := by
  have hlen : pre.length < ch.code.length := by
    have := code_len_at hcode
    simp at this
    omega
  have hop : code_byte ch pre.length = OP_STORE_VAR := by
    have := code_byte_at hcode 0 (by norm_num)
    simpa using this
  have hop1 : code_byte ch (pre.length + 1) = b1 := by
    have := code_byte_at hcode 1 (by norm_num)
    simpa using this
  have hop2 : code_byte ch (pre.length + 2) = b2 := by
    have := code_byte_at hcode 2 (by norm_num)
    simpa [Nat.add_assoc] using this
  have hstep := vmStep_store_var ch ⟨pre.length, v :: stk, g, out⟩ v stk hlen hop rfl
  rw [show read_u16 ch (pre.length + 1) = b1 * 256 + b2 from by
    unfold read_u16
    rw [hop1, show pre.length + 1 + 1 = pre.length + 2 from by omega, hop2]] at hstep
  exact .step hstep (.refl _)

theorem exprStmt_sim_aux (e : ASTNode) (he : simpleExpr e = true) (f0 : Nat)
    (cs : CompState) (hfe : exprDepth e ≤ f0)
    (heq : compile_statement (f0 + 1) e cs =
      emit_byte (compile_expression f0 e cs) OP_POP) :
    ∃ (cS : List Nat) (K : List RuntimeValue) (st2 : SymbolTable),
      compile_statement (f0 + 1) e cs =
        { chunk := ⟨cs.chunk.code ++ cS, cs.chunk.constants ++ K⟩, symtab := st2, errors := cs.errors } ∧
      cS.length ≤ 4 * exprSize e + 4 ∧
      K.length ≤ exprSize e ∧
      (∀ (ch : BytecodeChunk) (pre post : List Nat) (C1 : List RuntimeValue),
        ch.code = pre ++ cS ++ post →
        ch.constants = cs.chunk.constants ++ K ++ C1 →
        cs.chunk.constants.length + K.length ≤ 256 →
        ∀ (stk g : List RuntimeValue) (out : List String),
          stk.length + exprDepth e ≤ 256 →
          ∃ (n : Nat) (g2 : List RuntimeValue) (out2 : List String),
            n ≤ cS.length ∧
            StepsN ch n ⟨pre.length, stk, g, out⟩
              ⟨pre.length + cS.length, stk, g2, out2⟩) := by
  obtain ⟨c, K, st2, hE, h1, h4, hK, hst, hex⟩ :=
    simpleExpr_sim (exprDepth e) e he le_rfl f0 cs hfe
  refine ⟨c ++ [OP_POP], K, st2, ?_, ?_, hK, ?_⟩
  · rw [heq, hE]
    simp [emit_byte, vm_chunk_write_byte, OP_POP]
  · simp only [List.length_append, List.length_cons, List.length_nil]
    omega
  · intro ch pre post C1 hcode hconst hk stk g out hstk
    have hcodeE : ch.code = pre ++ c ++ ([OP_POP] ++ post) := by
      rw [hcode]
      simp
    obtain ⟨n, v, hn, _, hsE⟩ := hex ch pre ([OP_POP] ++ post) C1 hcodeE hconst hk
      stk g out hstk
    have hlen2 : pre.length + c.length < ch.code.length := by
      have := code_len_at hcode
      simp at this
      omega
    have hop2 : code_byte ch (pre.length + c.length) = OP_POP := by
      have h0 := code_byte_at hcode c.length (by simp)
      rw [List.getD_append_right _ _ _ _ (by omega)] at h0
      simpa using h0
    have hstep2 := vmStep_pop ch ⟨pre.length + c.length, v :: stk, g, out⟩ v stk
      hlen2 hop2 rfl
    refine ⟨n + 1, g, out, by simp; omega, ?_⟩
    have hip : pre.length + (c ++ [OP_POP]).length = pre.length + c.length + 1 := by
      simp
      omega
    rw [hip]
    exact StepsN_trans hsE (StepsN.step hstep2 (.refl _))

theorem simpleStmt_sim (t : ASTNode) (hs : simpleStmt t = true)
    (f : Nat) (cs : CompState) (hf : exprDepth (stmtExprOf t) + 3 ≤ f)
    (hfresh : ∀ name init dt mu, t = .variable_decl name init dt mu →
      symtab_find cs.symtab name = none) :
    ∃ (cS : List Nat) (K : List RuntimeValue) (st2 : SymbolTable),
      compile_statement f t cs =
        { chunk := ⟨cs.chunk.code ++ cS, cs.chunk.constants ++ K⟩, symtab := st2, errors := cs.errors } ∧
      cS.length ≤ 4 * exprSize (stmtExprOf t) + 4 ∧
      K.length ≤ exprSize (stmtExprOf t) ∧
      (∀ (ch : BytecodeChunk) (pre post : List Nat) (C1 : List RuntimeValue),
        ch.code = pre ++ cS ++ post →
        ch.constants = cs.chunk.constants ++ K ++ C1 →
        cs.chunk.constants.length + K.length ≤ 256 →
        ∀ (stk g : List RuntimeValue) (out : List String),
          stk.length + exprDepth (stmtExprOf t) ≤ 256 →
          ∃ (n : Nat) (g2 : List RuntimeValue) (out2 : List String),
            n ≤ cS.length ∧
            StepsN ch n ⟨pre.length, stk, g, out⟩
              ⟨pre.length + cS.length, stk, g2, out2⟩) := by
  cases f with
  | zero => exact absurd hf (by omega)
  | succ f0 =>
  cases t with
  | literal tt v =>
      exact exprStmt_sim_aux _ hs f0 cs
        (by have hf2 : exprDepth (.literal tt v) + 3 ≤ f0 + 1 := hf; omega) rfl
  | var_ref name =>
      exact exprStmt_sim_aux _ hs f0 cs
        (by have hf2 : exprDepth (.var_ref name) + 3 ≤ f0 + 1 := hf; omega) rfl
  | binary_op op a b =>
      exact exprStmt_sim_aux _ hs f0 cs
        (by have hf2 : exprDepth (.binary_op op a b) + 3 ≤ f0 + 1 := hf; omega) rfl
  | function_call fname args =>
      cases args with
      | nil => exact absurd hs (by simp [simpleStmt])
      | cons e rest =>
      cases rest with
      | cons e2 r2 => exact absurd hs (by simp [simpleStmt])
      | nil =>
      by_cases hpr : fname = "print"
      case neg => exact absurd hs (by simp [simpleStmt, hpr])
      case pos =>
      subst hpr
      have he : simpleExpr e = true := hs
      have hfe : exprDepth e + 3 ≤ f0 + 1 := hf
      have h1e := one_le_exprDepth e
      cases f0 with
      | zero => exact absurd hfe (by omega)
      | succ f2 =>
      cases f2 with
      | zero => exact absurd hfe (by omega)
      | succ f3 =>
      have hf3 : exprDepth e ≤ f3 := by omega
      obtain ⟨c, K, st2, hE, h1c, h4, hK, hstE, hex⟩ :=
        simpleExpr_sim (exprDepth e) e he le_rfl f3 cs hf3
      refine ⟨c ++ [OP_PRINT, OP_POP], K, st2, ?_, ?_, hK, ?_⟩
      · show compile_statement (f3 + 1 + 1 + 1) (.function_call "print" [e]) cs = _
        rw [show compile_statement (f3 + 1 + 1 + 1) (.function_call "print" [e]) cs =
          emit_byte (compile_expression (f3 + 1 + 1) (.function_call "print" [e]) cs)
            OP_POP from rfl]
        rw [show compile_expression (f3 + 1 + 1) (.function_call "print" [e]) cs =
          emit_byte (compile_expr_list (f3 + 1) [e] cs) OP_PRINT from rfl]
        rw [show compile_expr_list (f3 + 1) [e] cs =
          compile_expr_list f3 [] (compile_expression f3 e cs) from rfl]
        rw [compile_expr_list_nil, hE]
        simp [emit_byte, vm_chunk_write_byte, OP_PRINT, OP_POP]
      · have hsz : exprSize (stmtExprOf (.function_call "print" [e])) = exprSize e := rfl
        simp only [List.length_append, List.length_cons, List.length_nil, hsz]
        omega
      · intro ch pre post C1 hcode hconst hk stk g out hstk
        have hstk2 : stk.length + exprDepth e ≤ 256 := hstk
        have hcodeE : ch.code = pre ++ c ++ ([OP_PRINT, OP_POP] ++ post) := by
          rw [hcode]
          simp
        obtain ⟨n, v, hn, _, hsE⟩ := hex ch pre ([OP_PRINT, OP_POP] ++ post) C1
          hcodeE hconst hk stk g out hstk2
        have hlen2 : pre.length + c.length < ch.code.length := by
          have := code_len_at hcode
          simp at this
          omega
        have hopP : code_byte ch (pre.length + c.length) = OP_PRINT := by
          have h0 := code_byte_at hcode c.length (by simp)
          rw [List.getD_append_right _ _ _ _ (by omega)] at h0
          simpa using h0
        have hstepP := vmStep_print ch ⟨pre.length + c.length, v :: stk, g, out⟩ v stk
          hlen2 hopP rfl (by omega)
        have hlen3 : pre.length + c.length + 1 < ch.code.length := by
          have := code_len_at hcode
          simp at this
          omega
        have hopQ : code_byte ch (pre.length + c.length + 1) = OP_POP := by
          have h0 := code_byte_at hcode (c.length + 1) (by simp)
          rw [List.getD_append_right _ _ _ _ (by omega)] at h0
          rw [← Nat.add_assoc] at h0
          simpa using h0
        have hstepQ := vmStep_pop ch
          ⟨pre.length + c.length + 1, .nullV :: stk, g, out ++ [vm_print_line v]⟩
          .nullV stk hlen3 hopQ rfl
        refine ⟨n + 2, g, out ++ [vm_print_line v], by simp; omega, ?_⟩
        have hip : pre.length + (c ++ [OP_PRINT, OP_POP]).length =
            pre.length + c.length + 1 + 1 := by
          simp
          omega
        rw [hip]
        exact StepsN_trans hsE (StepsN.step hstepP (StepsN.step hstepQ (.refl _)))
  | variable_decl name init dt mu =>
      have hfr := hfresh name init dt mu rfl
      have hga : symbol_table_get_or_add_variable cs.symtab name mu =
          .ok (cs.symtab.length, cs.symtab ++
            [({ name := name, index := cs.symtab.length, isFunction := false, is_mutable := mu } : Symbol)]) := by
        unfold symbol_table_get_or_add_variable
        rw [hfr]
      cases init with
      | some e =>
          have he : (numExpr e || constLit e) = true := hs
          have hse : simpleExpr e = true := by
            simp only [simpleExpr, Bool.or_eq_true] at he ⊢
            tauto
          have hfe : exprDepth e + 3 ≤ f0 + 1 := hf
          obtain ⟨c, K, st2E, hE, h1c, h4, hK, hstE, hex⟩ :=
            simpleExpr_sim (exprDepth e) e hse le_rfl f0 cs (by omega)
          rw [hstE he] at hE
          refine ⟨c ++ [OP_STORE_VAR, cs.symtab.length / 256 % 256 % 256, cs.symtab.length % 256 % 256], K, cs.symtab ++ [({ name := name, index := cs.symtab.length, isFunction := false, is_mutable := mu } : Symbol)], ?_, ?_, hK, ?_⟩
          · show compile_statement (f0 + 1) (.variable_decl name (some e) dt mu) cs = _
            rw [show compile_statement (f0 + 1) (.variable_decl name (some e) dt mu) cs =
              (match symbol_table_get_or_add_variable
                  (compile_expression f0 e cs).symtab name mu with
               | .error msg => emit_error (compile_expression f0 e cs) msg
               | .ok (varIndex, st) =>
                   emit_u16 (emit_byte { compile_expression f0 e cs with symtab := st }
                     OP_STORE_VAR) varIndex) from rfl]
            rw [hE]
            simp only []
            rw [hga]
            simp [emit_u16, emit_byte, vm_chunk_write_byte, OP_STORE_VAR]
          · have hsz : exprSize (stmtExprOf (.variable_decl name (some e) dt mu)) =
                exprSize e := rfl
            simp only [List.length_append, List.length_cons, List.length_nil, hsz]
            omega
          · intro ch pre post C1 hcode hconst hk stk g out hstk
            have hstk2 : stk.length + exprDepth e ≤ 256 := hstk
            have hcodeE : ch.code = pre ++ c ++
                ([OP_STORE_VAR, cs.symtab.length / 256 % 256 % 256,
                  cs.symtab.length % 256 % 256] ++ post) := by
              rw [hcode]
              simp
            obtain ⟨n, v, hn, _, hsE⟩ := hex ch pre _ C1 hcodeE hconst hk stk g out hstk2
            have hcodeS : ch.code = (pre ++ c) ++
                [OP_STORE_VAR, cs.symtab.length / 256 % 256 % 256,
                 cs.symtab.length % 256 % 256] ++ post := by
              rw [hcode]
              simp
            have hsS := store_var_exec hcodeS v stk g out
            simp only [List.length_append] at hsS
            refine ⟨n + 1, g.set (cs.symtab.length / 256 % 256 % 256 * 256 + cs.symtab.length % 256 % 256) v, out, by simp; omega, ?_⟩
            have hip : pre.length + (c ++ [OP_STORE_VAR,
                cs.symtab.length / 256 % 256 % 256,
                cs.symtab.length % 256 % 256]).length =
                pre.length + c.length + 3 := by
              simp
              omega
            rw [hip]
            exact StepsN_trans hsE hsS
      | none =>
          refine ⟨[OP_LOAD_CONST, cs.chunk.constants.length % 256, OP_STORE_VAR, cs.symtab.length / 256 % 256 % 256, cs.symtab.length % 256 % 256], [.nullV], cs.symtab ++ [({ name := name, index := cs.symtab.length, isFunction := false, is_mutable := mu } : Symbol)], ?_, ?_, ?_, ?_⟩
          · show compile_statement (f0 + 1) (.variable_decl name none dt mu) cs = _
            rw [show compile_statement (f0 + 1) (.variable_decl name none dt mu) cs =
              (match symbol_table_get_or_add_variable
                  (emit_constant cs .nullV).symtab name mu with
               | .error msg => emit_error (emit_constant cs .nullV) msg
               | .ok (varIndex, st) =>
                   emit_u16 (emit_byte { emit_constant cs .nullV with symtab := st }
                     OP_STORE_VAR) varIndex) from rfl]
            rw [show (emit_constant cs .nullV).symtab = cs.symtab from by
              rw [emit_constant_shape]]
            rw [hga]
            rw [emit_constant_shape]
            simp [emit_u16, emit_byte, vm_chunk_write_byte, OP_STORE_VAR]
          · show (5 : Nat) ≤ 4 * exprSize (stmtExprOf (.variable_decl name none dt mu)) + 4
            rw [show stmtExprOf (.variable_decl name none dt mu) =
              .literal .TOKEN_NULL "null" from rfl]
            rw [show exprSize (ASTNode.literal .TOKEN_NULL "null") = 1 from rfl]
            omega
          · show (1 : Nat) ≤ exprSize (stmtExprOf (.variable_decl name none dt mu))
            rw [show stmtExprOf (.variable_decl name none dt mu) =
              .literal .TOKEN_NULL "null" from rfl]
            rw [show exprSize (ASTNode.literal .TOKEN_NULL "null") = 1 from rfl]
          · intro ch pre post C1 hcode hconst hk stk g out hstk
            have hstk2 : stk.length < 256 := by
              have h2 : stk.length + exprDepth (.literal .TOKEN_NULL "null") ≤ 256 := hstk
              rw [show exprDepth (ASTNode.literal .TOKEN_NULL "null") = 1 from rfl] at h2
              omega
            have hk2 : cs.chunk.constants.length + 1 ≤ 256 := by
              have h2 : cs.chunk.constants.length +
                  (([RuntimeValue.nullV] : List RuntimeValue)).length ≤ 256 := hk
              simpa using h2
            have hcodeL : ch.code = pre ++ [OP_LOAD_CONST, cs.chunk.constants.length % 256] ++
                ([OP_STORE_VAR, cs.symtab.length / 256 % 256 % 256,
                  cs.symtab.length % 256 % 256] ++ post) := by
              rw [hcode]
              simp
            have hconstL : ch.constants = cs.chunk.constants ++ [RuntimeValue.nullV] ++ C1 := by
              rw [hconst]
            have hsL := load_const_exec hcodeL hconstL hk2 stk g out hstk2
            have hcodeS : ch.code = (pre ++ [OP_LOAD_CONST, cs.chunk.constants.length % 256]) ++
                [OP_STORE_VAR, cs.symtab.length / 256 % 256 % 256,
                 cs.symtab.length % 256 % 256] ++ post := by
              rw [hcode]
              simp
            have hsS := store_var_exec hcodeS .nullV stk g out
            simp only [List.length_append, List.length_cons, List.length_nil] at hsS
            refine ⟨2, g.set (cs.symtab.length / 256 % 256 % 256 * 256 + cs.symtab.length % 256 % 256) .nullV, out, by simp, ?_⟩
            have hip : pre.length + ([OP_LOAD_CONST, cs.chunk.constants.length % 256,
                OP_STORE_VAR, cs.symtab.length / 256 % 256 % 256,
                cs.symtab.length % 256 % 256] : List Nat).length =
                pre.length + 2 + 3 := by
              simp
            rw [hip]
            exact StepsN_trans hsL (by convert hsS using 2 <;> omega)
  | assignment n v => exact absurd hs (by simp [simpleStmt, simpleExpr, numExpr, constLit])
  | unary_op o a => exact absurd hs (by simp [simpleStmt, simpleExpr, numExpr, constLit])
  | if_statement a b c => exact absurd hs (by simp [simpleStmt, simpleExpr, numExpr, constLit])
  | while_loop a b => exact absurd hs (by simp [simpleStmt, simpleExpr, numExpr, constLit])
  | for_loop a b c dd => exact absurd hs (by simp [simpleStmt, simpleExpr, numExpr, constLit])
  | block a => exact absurd hs (by simp [simpleStmt, simpleExpr, numExpr, constLit])
  | function_def a b c => exact absurd hs (by simp [simpleStmt, simpleExpr, numExpr, constLit])
  | array_literal a => exact absurd hs (by simp [simpleStmt, simpleExpr, numExpr, constLit])
  | index_access a b => exact absurd hs (by simp [simpleStmt, simpleExpr, numExpr, constLit])
  | object_literal a b => exact absurd hs (by simp [simpleStmt, simpleExpr, numExpr, constLit])
  | property_access a b => exact absurd hs (by simp [simpleStmt, simpleExpr, numExpr, constLit])
  | method_call a b c => exact absurd hs (by simp [simpleStmt, simpleExpr, numExpr, constLit])
  | property_assignment a b c => exact absurd hs (by simp [simpleStmt, simpleExpr, numExpr, constLit])
  | range a b => exact absurd hs (by simp [simpleStmt, simpleExpr, numExpr, constLit])
  | naked_iterator a b c dd => exact absurd hs (by simp [simpleStmt, simpleExpr, numExpr, constLit])

theorem stmt_pipeline (t : ASTNode) (hs : simpleStmt t = true)
    (cf rf : Nat) (hsz : exprSize (stmtExprOf t) ≤ 60)
    (hcf : 64 ≤ cf) (hrf : 256 ≤ rf) :
    (compile_ast cf t emptyCompState).errors = [] ∧
    ∃ (st : VMState), compile_and_run t cf rf = some (0, st) ∧ st.stack = [] := by
  obtain ⟨cf0, rfl⟩ : ∃ cf0, cf = cf0 + 1 := ⟨cf - 1, by omega⟩
  have hdep : exprDepth (stmtExprOf t) ≤ exprSize (stmtExprOf t) :=
    exprDepth_le_size (exprDepth (stmtExprOf t)) (stmtExprOf t) le_rfl
  have hf : exprDepth (stmtExprOf t) + 3 ≤ cf0 := by omega
  have hfresh : ∀ name init dt mu, t = .variable_decl name init dt mu →
      symtab_find emptyCompState.symtab name = none := by
    intro name init dt mu ht
    rfl
  obtain ⟨cS, K, st2, hC, hlen, hKlen, hexec⟩ :=
    simpleStmt_sim t hs cf0 emptyCompState hf hfresh
  have hCA : compile_ast (cf0 + 1) t emptyCompState =
      { chunk := ⟨cS ++ [OP_EOF], K⟩, symtab := st2, errors := [] } := by
    rw [compile_ast,
      show compile_node (cf0 + 1) t emptyCompState = compile_statement cf0 t emptyCompState
        from rfl, hC]
    simp [emit_byte, vm_chunk_write_byte, OP_EOF, emptyCompState]
  refine ⟨by rw [hCA], ?_⟩
  have hex := hexec ⟨cS ++ [OP_EOF], K⟩ [] [OP_EOF] []
    (by simp [emptyCompState]) (by simp [emptyCompState])
    (by simp [emptyCompState]; omega)
    [] (List.replicate 512 .nullV) [] (by simp [emptyCompState]; omega)
  obtain ⟨n, g2, out2, hn, hsteps⟩ := hex
  simp only [List.length_nil, Nat.zero_add] at hsteps
  have hop : code_byte ⟨cS ++ [OP_EOF], K⟩ cS.length = OP_EOF := by
    have := code_byte_at
      (show (⟨cS ++ [OP_EOF], K⟩ : BytecodeChunk).code = cS ++ [OP_EOF] ++ [] by simp)
      0 (by norm_num)
    simpa using this
  have hdone := vmStep_eof ⟨cS ++ [OP_EOF], K⟩ ⟨cS.length, [], g2, out2⟩
    (by simp) hop
  have hruneq : vmRun ⟨cS ++ [OP_EOF], K⟩ rf vmInit =
      vmRun ⟨cS ++ [OP_EOF], K⟩ (n + (rf - n)) vmInit := by
    rw [Nat.add_sub_cancel' (by omega)]
  have hsteps2 : StepsN (⟨cS ++ [OP_EOF], K⟩ : BytecodeChunk) n vmInit
      ⟨cS.length, [], g2, out2⟩ := hsteps
  obtain ⟨m, hm⟩ : ∃ m, rf - n = m + 1 := ⟨rf - n - 1, by omega⟩
  refine ⟨⟨cS.length + 1, [], g2, out2⟩, ?_, rfl⟩
  show vmRun (compile_ast (cf0 + 1) t ⟨⟨[], []⟩, [], []⟩).chunk rf vmInit = _
  rw [show (⟨⟨[], []⟩, [], []⟩ : CompState) = emptyCompState from rfl, hCA]
  rw [hruneq, vmRun_stepsN hsteps2 (rf - n), hm, vmRun, hdone]

/-- Claim C5, counterexample.  `print(1, 2)` compiles without any
diagnostic, yet running the compiled chunk ends with exit status 0 and
the number 1 still sitting on the operand stack: `OP_PRINT` pops only
one argument (and pushes its null result, which the trailing `OP_POP`
consumes), so the statement is not stack-neutral. -/
theorem C5_counterexample :
    (compile_ast 100 progPrintTwo emptyCompState).errors = [] ∧
    (compile_and_run progPrintTwo 100 100).map (fun r => (r.1, r.2.stack)) =
      some (0, [RuntimeValue.numberV 1]) := by
  exact ⟨rfl, rfl⟩

/-- Claim C5, amended.  (1) Every expression statement is compiled
through `compile_statement`'s default arm, which appends an explicit
`OP_POP` after the expression's code.  (2) For the simple statement
fragment (number/string/boolean/null literal statements, variable
reads, `+`/`-`/`*` over number literals, single-argument `print`, and
fresh variable declarations), the full pipeline terminates with exit
status 0, no diagnostics, and an EMPTY operand stack - the stack
discipline the claim states, which fails in general (C5's
counterexample: a two-argument `print` leaves a value behind, since
`OP_PRINT` pops one argument and pushes null). -/
theorem C5_amended :
    (∀ (fuel : Nat) (e : ASTNode) (cs : CompState), isExprStmt e = true →
      compile_statement (fuel + 1) e cs = emit_byte (compile_expression fuel e cs) OP_POP) ∧
    (∀ (t : ASTNode), simpleStmt t = true →
      ∀ (cf rf : Nat), exprSize (stmtExprOf t) ≤ 60 → 64 ≤ cf → 256 ≤ rf →
      (compile_ast cf t emptyCompState).errors = [] ∧
      ∃ (st : VMState), compile_and_run t cf rf = some (0, st) ∧ st.stack = []) := by
  constructor
  · intro fuel e cs h
    cases e <;> first
      | rfl
      | exact absurd h (by simp [isExprStmt])
  · intro t hs cf rf hsz hcf hrf
    exact stmt_pipeline t hs cf rf hsz hcf hrf

/-- Claim C5, witness: the amended theorem at `print(1)` with both
fuels 300. -/
theorem C5_amended_witness :
    (compile_ast 300 progPrintOne emptyCompState).errors = [] ∧
    ∃ (st : VMState), compile_and_run progPrintOne 300 300 = some (0, st) ∧ st.stack = [] :=
  C5_amended.2 progPrintOne (by decide) 300 300 (by decide) (by decide) (by decide)

end Ember
